import Mathlib

/-!
Verification of the Makefile-based boilerplate generator in pondrejk/scripts.

The repository consists of two Makefile variants (a plain React/Redux one and a
TypeScript one) plus static template files.  Each Makefile target is a named
step whose recipe is a short list of shell commands; the composite `build`
target lists the steps as prerequisites, which `make` (run sequentially,
without `-k`) processes left to right, stopping at the first recipe line that
exits with a non-zero status.

The embedding below models:
  * a filesystem as an association list from paths (lists of components) to
    nodes (directory or file-with-content); later entries are shadowed by
    earlier ones, so creating/overwriting is a `cons`;
  * the file-system commands appearing in the recipes (`mkdir -p`, `cp`,
    `mv`) with their POSIX success/failure conditions, including option
    validation for `mv` (POSIX/GNU `mv` has no `-r` option);
  * every other recipe line (npx / npm / jq / git invocations) as an opaque
    external command, interpreted by an environment that returns success or
    failure, as the spec treats these collaborators as black boxes;
  * each step's working directory as written in the recipe: a leading
    `cd $(NAME) &&` means the generated project root, a leading
    `cd $(PARENT_DIR)/$(NAME) &&` means the moved project directory, and no
    `cd` means the invocation root (make's own working directory);
  * the sequential prerequisite processing of `make build` as a runner over
    the ordered step list, halting at the first failing step.

Shell quoting inside recipe lines is elided when the line is kept as an opaque
string (the strings are only used as keys for the external-command
environment).  The `help` target (three `@echo` lines) and the final
`@echo "success"` of `build` produce no filesystem effects and are not
modelled.  Make targets are treated as always out of date (no files named
after the targets exist), which matches the repository layout.
-/

/-- A filesystem path, as a list of components relative to the invocation
root.  Paths are kept syntactic; no `.` normalisation is applied. -/
abbrev FPath := List String

/-- A filesystem node: a directory or a file with byte content. -/
inductive Node where
  | dir : Node
  | file : String → Node
deriving DecidableEq, Repr

/-- A filesystem: an association list from paths to nodes.  Earlier entries
shadow later ones, so an overwrite is a `cons`. -/
abbrev FS := List (FPath × Node)

/-- Look a path up in the filesystem (first matching entry wins). -/
def lookupNode : FS → FPath → Option Node
  | [], _ => none
  | (q, n) :: fs, p => if p = q then some n else lookupNode fs p

/-- The non-empty prefixes of a path, shortest first. -/
def prefixesOf (p : FPath) : List FPath :=
  (List.range p.length).map (fun i => p.take (i + 1))

/-- Failure conditions of the modelled file-system commands. -/
inductive FsErr where
  | fileInPath
  | srcMissing
  | dstIsDir
  | dstParentMissing
  | badOption
deriving DecidableEq, Repr

/-- Result of a file-system command: success with the new filesystem, or a
failure carrying the failure kind and the filesystem at the failure point. -/
inductive FsRes where
  | ok : FS → FsRes
  | err : FsErr → FS → FsRes
deriving DecidableEq, Repr

/-- Create each directory of the given list in turn, like `mkdir -p` walking
the prefixes of its argument: an existing directory is kept, a file at any
position is an error, a missing entry becomes a directory.  Directories
created before the failure point are kept, matching `mkdir -p`. -/
def mkdirUnder : List FPath → FS → FsRes
  | [], fs => .ok fs
  | q :: qs, fs =>
    if lookupNode fs q = some Node.dir then mkdirUnder qs fs
    else if lookupNode fs q = none then mkdirUnder qs ((q, Node.dir) :: fs)
    else .err .fileInPath fs

/-- The path `cp src dst` actually writes to: when `dst` is an existing
directory, `cp` succeeds and places the source file inside it under the
source's base name; otherwise it writes to `dst` itself.  The sources of
this repository are always non-empty paths, so the base name is their last
component (`getLastD` supplies a dummy for the unused empty case). -/
def cpTarget (fs : FS) (s d : FPath) : FPath :=
  if lookupNode fs d = some Node.dir then d ++ [s.getLastD ""] else d

/-- Model of `cp src dst`: the source must be an existing file; the write
target (see `cpTarget`) must not itself be an existing directory, and its
parent directory must exist (the empty parent is the invocation root, which
always exists); the target is overwritten unconditionally with the source's
content. -/
def cp (fs : FS) (s d : FPath) : FsRes :=
  match lookupNode fs s with
  | some (.file c) =>
    if lookupNode fs (cpTarget fs s d) = some Node.dir then .err .dstIsDir fs
    else if (cpTarget fs s d).dropLast = [] ∨
        lookupNode fs (cpTarget fs s d).dropLast = some Node.dir then
      .ok ((cpTarget fs s d, Node.file c) :: fs)
    else .err .dstParentMissing fs
  | _ => .err .srcMissing fs

/-- The option letters accepted by `mv` (POSIX plus the GNU coreutils short
options).  There is no `-r`/`-R`: `mv` moves directories recursively by
itself and rejects an `-r` argument with a usage error. -/
def mvOptChars : List Char := ['f', 'i', 'n', 'u', 'v', 'b', 'S', 't', 'T', 'Z']

/-- Validity check for the option arguments of an `mv` invocation. -/
def mvFlagsOk (flags : List String) : Bool :=
  flags.all (fun f => ((f.drop 1).toList).all (fun c => mvOptChars.contains c))

/-- Model of `mv [flags] src dst`: an unknown option letter is a usage error
before anything is touched; otherwise the source subtree is re-rooted at the
destination (inside the destination when it is an existing directory). -/
def mv (fs : FS) (flags : List String) (s d : FPath) : FsRes :=
  if mvFlagsOk flags then
    match lookupNode fs s with
    | none => .err .srcMissing fs
    | some _ =>
      let d' := if lookupNode fs d = some Node.dir then d ++ s.drop (s.length - 1) else d
      .ok (fs.map (fun e =>
        if s = e.1.take s.length then (d' ++ e.1.drop s.length, e.2) else e))
  else
    .err .badOption fs

/-- The file-system commands occurring in the recipes. -/
inductive FSOp where
  | mkdirp : FPath → FSOp
  | cp : FPath → FPath → FSOp
  | mv : List String → FPath → FPath → FSOp
deriving DecidableEq, Repr

/-- Apply one file-system command. -/
def applyFsOp (fs : FS) : FSOp → FsRes
  | .mkdirp p => mkdirUnder (prefixesOf p) fs
  | .cp s d => cp fs s d
  | .mv flags s d => mv fs flags s d

/-- The working directory of a recipe line, as written in the Makefiles. -/
inductive Wd where
  | invocationRoot
  | projectRoot
  | movedProject
deriving DecidableEq, Repr

/-- The two Makefile variants in the repository:
`react_redux_boilerplate/Makefile` and the TypeScript variant. -/
inductive Variant where
  | js
  | ts
deriving DecidableEq, Repr

/-- The command-line parameters of a run: `NAME` and `PARENT_DIR`. -/
structure Params where
  name : String
  parentDir : String
deriving DecidableEq, Repr

/-- Single-quote character, used in the default of the `NAME` variable. -/
def squote : Char := Char.ofNat 39

/-- Default of the make variable `NAME` (line 1 of both Makefiles):
the literal `my_project` surrounded by single quotes. -/
def defaultNAME (_v : Variant) : String :=
  String.mk (squote :: ("my_project".toList ++ [squote]))

/-- Default of the make variable `PARENT_DIR` (line 2 of both Makefiles):
the current directory. -/
def defaultPARENT_DIR (_v : Variant) : String := "."

/-- Default parameters when both command-line parameters are omitted. -/
def defaultParams (v : Variant) : Params :=
  ⟨defaultNAME v, defaultPARENT_DIR v⟩

/-- Removal of one layer of shell single quotes, as the shell does when a
recipe line expands `$(NAME)` into a command word. -/
def shellUnquote (s : String) : String :=
  match s.toList with
  | c :: rest =>
    if c = squote ∧ rest.getLast? = some squote then String.mk rest.dropLast
    else s
  | [] => s

/-- The run state: the filesystem plus the list of commits created so far
(pairs of repository path and commit message). -/
structure St where
  fs : FS
  commits : List (FPath × String)
deriving DecidableEq, Repr

/-- Result of one recipe line: success, or failure with an optional
file-system error kind, carrying the state at that point (a failing command
never rolls anything back). -/
inductive CmdRes where
  | ok : St → CmdRes
  | fail : Option FsErr → St → CmdRes
deriving DecidableEq, Repr

/-- A recipe line: either one of the modelled file-system commands or an
opaque external command line (npx / npm / jq / git …). -/
inductive Cmd where
  | fsOp : Wd → FSOp → Cmd
  | ext : Wd → String → Cmd
deriving DecidableEq, Repr

/-- The working directory of a recipe line. -/
def cmdWd : Cmd → Wd
  | .fsOp wd _ => wd
  | .ext wd _ => wd

/-- Interpretation of the external (black-box) commands: given the command
line, its working directory and the current state, return success or
failure.  The spec only requires each collaborator to report success or
failure. -/
abbrev Env := String → Wd → St → CmdRes

/-- FPath of a working directory, relative to the invocation root. -/
def wdBase (P : Params) : Wd → FPath
  | .invocationRoot => []
  | .projectRoot => [P.name]
  | .movedProject => [P.parentDir, P.name]

/-- Re-root the paths of a file-system command at the given base. -/
def resolveOp (base : FPath) : FSOp → FSOp
  | .mkdirp p => .mkdirp (base ++ p)
  | .cp s d => .cp (base ++ s) (base ++ d)
  | .mv flags s d => .mv flags (base ++ s) (base ++ d)

/-- Run one recipe line. -/
def runCmd (env : Env) (P : Params) (c : Cmd) (st : St) : CmdRes :=
  match c with
  | .fsOp wd op =>
    match applyFsOp st.fs (resolveOp (wdBase P wd) op) with
    | .ok fs' => .ok { st with fs := fs' }
    | .err e fs' => .fail (some e) { st with fs := fs' }
  | .ext wd line => env line wd st

/-- Run the recipe lines of one step in order, stopping at the first
failure (make aborts a target when a recipe line exits non-zero). -/
def runCmds (env : Env) (P : Params) : List Cmd → St → CmdRes
  | [], st => .ok st
  | c :: cs, st =>
    match runCmd env P c st with
    | .ok st' => runCmds env P cs st'
    | .fail e stf => .fail e stf

/-- The named steps of the build (the `help` target only prints usage and is
not part of any sequence). -/
inductive StepName where
  | createReactApp
  | configurePrettier
  | installBootstrap
  | installRedux
  | installRouter
  | installStyledComponents
  | copyFiles
  | gitCommit
deriving DecidableEq, Repr

/-- Recipe line of the `create-react-app` target (the TypeScript variant
adds `--template typescript`). -/
def craLine (v : Variant) (N : String) : String :=
  match v with
  | .js => "/usr/bin/npx create-react-app " ++ N ++ " --use-npm"
  | .ts => "/usr/bin/npx create-react-app " ++ N ++ " --use-npm --template typescript"

/-- Suffix appended to every `npm install` line of the TypeScript variant. -/
def legacyFlag (v : Variant) : String :=
  match v with
  | .js => ""
  | .ts => " --legacy-peer-deps"

/-- Packages of the `install-redux` target per variant. -/
def reduxPkgs (v : Variant) : String :=
  match v with
  | .js => "redux react-redux"
  | .ts => "redux react-redux @reduxjs/toolkit redux-devtools-extension"

/-- The file-system commands of the `copy-files` target, line by line:
`mkdir -p` lines followed by four `cp` lines, with `$(NAME)`-prefixed paths
(this target contains no `cd`, so all lines run from the invocation root). -/
def copyOps (v : Variant) (N : String) : List FSOp :=
  match v with
  | .js =>
    [.mkdirp [N, "src", "components"],
     .mkdirp [N, "src", "actions"],
     .mkdirp [N, "src", "reducers"],
     .cp ["boilerplate-action.js"] [N, "src", "actions", "index.js"],
     .cp ["boilerplate-reducer.js"] [N, "src", "reducers", "index.js"],
     .cp ["boilerplate-app.js"] [N, "src", "App.js"],
     .cp ["boilerplate-index.js"] [N, "src", "index.js"]]
  | .ts =>
    [.mkdirp [N, "src", "components"],
     .mkdirp [N, "src", "app"],
     .cp ["boilerplate-store.ts"] [N, "src", "app", "store.tsx"],
     .cp ["boilerplate-hooks.ts"] [N, "src", "app", "hooks.tsx"],
     .cp ["boilerplate-app.tsx"] [N, "src", "App.tsx"],
     .cp ["boilerplate-index.tsx"] [N, "src", "index.tsx"]]

/-- The four source-template/destination pairs copied by `copy-files`. -/
def copyPairs (v : Variant) (N : String) : List (FPath × FPath) :=
  match v with
  | .js =>
    [(["boilerplate-action.js"], [N, "src", "actions", "index.js"]),
     (["boilerplate-reducer.js"], [N, "src", "reducers", "index.js"]),
     (["boilerplate-app.js"], [N, "src", "App.js"]),
     (["boilerplate-index.js"], [N, "src", "index.js"])]
  | .ts =>
    [(["boilerplate-store.ts"], [N, "src", "app", "store.tsx"]),
     (["boilerplate-hooks.ts"], [N, "src", "app", "hooks.tsx"]),
     (["boilerplate-app.tsx"], [N, "src", "App.tsx"]),
     (["boilerplate-index.tsx"], [N, "src", "index.tsx"])]

/-- The directories named by the `mkdir -p` lines of `copy-files`. -/
def mkdirDirs (v : Variant) (N : String) : List FPath :=
  match v with
  | .js => [[N, "src", "components"], [N, "src", "actions"], [N, "src", "reducers"]]
  | .ts => [[N, "src", "components"], [N, "src", "app"]]

/-- Recipe of the `copy-files` target (all lines run from the invocation
root; no `cd` occurs in this target). -/
def copyCmds (v : Variant) (N : String) : List Cmd :=
  (copyOps v N).map (Cmd.fsOp .invocationRoot)

/-- The fixed commit message of the `git-commit` target. -/
def commitMsg : String := "Initial setup of Redux and friends"

/-- Recipe of the `git-commit` target.  The plain variant writes
`mv -r $(NAME) $(PARENT_DIR)/.` (note the `-r`); the TypeScript variant
writes `mv $(NAME) $(PARENT_DIR)`.  The three git lines run prefixed with
`cd $(PARENT_DIR)/$(NAME) &&`. -/
def gitCommitCmds (v : Variant) (P : Params) : List Cmd :=
  match v with
  | .js =>
    [.fsOp .invocationRoot (.mv ["-r"] [P.name] [P.parentDir, "."]),
     .ext .movedProject "git init",
     .ext .movedProject "git add .",
     .ext .movedProject ("git commit -m " ++ commitMsg)]
  | .ts =>
    [.fsOp .invocationRoot (.mv [] [P.name] [P.parentDir]),
     .ext .movedProject "git init",
     .ext .movedProject "git add .",
     .ext .movedProject ("git commit -m " ++ commitMsg)]

/-- The recipe lines of each step, per variant (quoting inside the opaque
external lines is elided). -/
def stepCmds (v : Variant) (P : Params) : StepName → List Cmd
  | .createReactApp => [.ext .invocationRoot (craLine v P.name)]
  | .configurePrettier =>
    [.ext .projectRoot
      "npm install husky lint-staged prettier && jq -s .[0] * .[1] package.json ../prettier-config.json | sponge package.json",
     .ext .projectRoot "/usr/bin/npx husky add .husky/pre-commit npx lint-staged"]
  | .installBootstrap =>
    [.ext .projectRoot ("npm install react-bootstrap bootstrap" ++ legacyFlag v)]
  | .installRedux =>
    [.ext .projectRoot ("npm install " ++ reduxPkgs v ++ legacyFlag v)]
  | .installRouter =>
    [.ext .projectRoot ("npm install react-router-dom" ++ legacyFlag v)]
  | .installStyledComponents =>
    [.ext .projectRoot ("npm install styled-components" ++ legacyFlag v)]
  | .copyFiles => copyCmds v P.name
  | .gitCommit => gitCommitCmds v P

/-- The prerequisite list of the composite `build` target, in the order
written in each Makefile. -/
def buildNames (v : Variant) : List StepName :=
  match v with
  | .js =>
    [.createReactApp, .configurePrettier, .installRedux, .installRouter,
     .installBootstrap, .installStyledComponents, .copyFiles, .gitCommit]
  | .ts =>
    [.createReactApp, .installRedux, .installRouter, .installBootstrap,
     .installStyledComponents, .copyFiles, .gitCommit]

/-- Result of a whole run: success, or the name of the failing step together
with the state at the failure point. -/
inductive RunRes where
  | ok : St → RunRes
  | fail : StepName → St → RunRes
deriving DecidableEq, Repr

/-- Run a list of steps in order, as `make` processes the prerequisites of
`build` sequentially: each step runs its recipe lines; the first failing
step aborts the run.  Returns the trace of steps started and the result. -/
def runNames (v : Variant) (env : Env) (P : Params) :
    List StepName → St → List StepName × RunRes
  | [], st => ([], .ok st)
  | n :: rest, st =>
    match runCmds env P (stepCmds v P n) st with
    | .ok st' =>
      let r := runNames v env P rest st'
      (n :: r.1, r.2)
    | .fail _ stf => ([n], .fail n stf)

/-- Run a list of steps requiring every one of them to succeed. -/
def runNamesOk (v : Variant) (env : Env) (P : Params) :
    List StepName → St → Option St
  | [], st => some st
  | n :: rest, st =>
    match runCmds env P (stepCmds v P n) st with
    | .ok st' => runNamesOk v env P rest st'
    | .fail _ _ => none

/-- The composite build operation: run the variant's prerequisite list. -/
def runBuild (v : Variant) (env : Env) (P : Params) (st : St) :
    List StepName × RunRes :=
  runNames v env P (buildNames v) st

/-- Decidable membership of a step name in a list, as a Boolean. -/
def memB (a : StepName) (l : List StepName) : Bool :=
  l.any (fun b => decide (a = b))

/-- Position of a step in a list (the list's length when absent). -/
def idxOf (a : StepName) : List StepName → Nat
  | [] => 0
  | b :: l => if a = b then 0 else idxOf a l + 1

/-- The package-installation group of §2 of the spec: state management,
routing, and the two UI-styling steps. -/
def installGroup : List StepName :=
  [.installRedux, .installRouter, .installBootstrap, .installStyledComponents]

/-- The step ordering asserted by claim C2, stated from the claim's words:
skeleton generation first, then every package-installation step, then the
formatting-configuration step when it is present at all, then the template
copy, and the finalize step last. -/
def claimC2OrderB (l : List StepName) : Bool :=
  decide (idxOf .createReactApp l = 0) &&
  installGroup.all (fun s => decide (idxOf s l < idxOf .copyFiles l)) &&
  (!(memB .configurePrettier l) ||
    (installGroup.all (fun s => decide (idxOf s l < idxOf .configurePrettier l)) &&
     decide (idxOf .configurePrettier l < idxOf .copyFiles l))) &&
  decide (idxOf .copyFiles l < idxOf .gitCommit l) &&
  decide (idxOf .gitCommit l = l.length - 1)

/-- The amended ordering: skeleton generation first; the formatting step —
present only when `hasFmt` — runs second, before the whole installation
group; every install step runs after the first step and before the copy
step; the copy step precedes the finalize step, which is last. -/
def amendedC2OrderB (l : List StepName) (hasFmt : Bool) : Bool :=
  decide (idxOf .createReactApp l = 0) &&
  (memB .configurePrettier l == hasFmt) &&
  (!hasFmt || (decide (idxOf .configurePrettier l = 1) &&
    installGroup.all (fun s => decide (idxOf .configurePrettier l < idxOf s l)))) &&
  installGroup.all (fun s => decide (0 < idxOf s l ∧ idxOf s l < idxOf .copyFiles l)) &&
  decide (idxOf .copyFiles l < idxOf .gitCommit l) &&
  decide (idxOf .gitCommit l = l.length - 1)

/-- Relation `TraceLeads l₁ l₂` states that the runner's trace `l₁` is an initial
segment of the step list `l₂`. -/
def TraceLeads (l₁ l₂ : List StepName) : Prop := ∃ t, l₁ ++ t = l₂

/-- Unfolding lemma for `runCmds` on a non-empty recipe. -/
theorem runCmds_cons (env : Env) (P : Params) (c : Cmd) (cs : List Cmd) (st : St) :
    runCmds env P (c :: cs) st =
      match runCmd env P c st with
      | .ok st' => runCmds env P cs st'
      | .fail e stf => .fail e stf := rfl

/-- A recipe succeeds iff its first line succeeds and the rest succeed from
the resulting state. -/
theorem runCmds_cons_ok_iff {env : Env} {P : Params} {c : Cmd} {cs : List Cmd}
    {st st' : St} :
    runCmds env P (c :: cs) st = .ok st' ↔
      ∃ st₁, runCmd env P c st = .ok st₁ ∧ runCmds env P cs st₁ = .ok st' := by
  cases hc : runCmd env P c st <;> simp [runCmds_cons, hc]

/-- Boolean membership agrees with membership. -/
theorem memB_eq_true_iff {a : StepName} {l : List StepName} :
    memB a l = true ↔ a ∈ l := by
  simp only [memB, List.any_eq_true, decide_eq_true_eq]
  exact ⟨fun ⟨x, hx, he⟩ => he ▸ hx, fun h => ⟨a, h, rfl⟩⟩

/-- Boolean non-membership agrees with non-membership. -/
theorem memB_eq_false_iff {a : StepName} {l : List StepName} :
    memB a l = false ↔ a ∉ l := by
  rw [Bool.eq_false_iff]
  exact not_congr memB_eq_true_iff

/-- The trace of a run is always an initial segment of the step list. -/
theorem runNames_trace (v : Variant) (env : Env) (P : Params) :
    ∀ (L : List StepName) (st : St), TraceLeads (runNames v env P L st).1 L := by
  intro L
  induction L with
  | nil => intro st; exact ⟨[], rfl⟩
  | cons n rest ih =>
    intro st
    cases hc : runCmds env P (stepCmds v P n) st with
    | ok st' =>
      obtain ⟨t, ht⟩ := ih st'
      refine ⟨t, ?_⟩
      have h1 : runNames v env P (n :: rest) st =
          (n :: (runNames v env P rest st').1, (runNames v env P rest st').2) := by
        simp [runNames, hc]
      rw [h1, List.cons_append, ht]
    | fail e stf =>
      refine ⟨rest, ?_⟩
      have h1 : runNames v env P (n :: rest) st = ([n], .fail n stf) := by
        simp [runNames, hc]
      rw [h1]
      rfl

/-- Decomposition of a failing run: the step list splits around the failing
step, the trace is the successful prefix followed by the failing step, the
prefix ran successfully, and the final state is exactly what the failing
step's recipe produced from the prefix's end state. -/
theorem runNames_fail_split (v : Variant) (env : Env) (P : Params) :
    ∀ (L : List StepName) (st stf : St) (n : StepName) (tr : List StepName),
      runNames v env P L st = (tr, .fail n stf) →
      ∃ pre post stPre,
        L = pre ++ n :: post ∧ tr = pre ++ [n] ∧
        runNamesOk v env P pre st = some stPre ∧
        ∃ e, runCmds env P (stepCmds v P n) stPre = .fail e stf := by
  intro L
  induction L with
  | nil =>
    intro st stf n tr h
    simp [runNames] at h
  | cons m rest ih =>
    intro st stf n tr h
    cases hc : runCmds env P (stepCmds v P m) st with
    | ok st' =>
      have h1 : runNames v env P (m :: rest) st =
          (m :: (runNames v env P rest st').1, (runNames v env P rest st').2) := by
        simp [runNames, hc]
      rw [h1, Prod.mk.injEq] at h
      obtain ⟨h2, h3⟩ := h
      have hr : runNames v env P rest st' =
          ((runNames v env P rest st').1, RunRes.fail n stf) := by
        rw [← h3]
      obtain ⟨pre, post, stPre, hL, htr, hok, e, hcmds⟩ := ih st' stf n _ hr
      refine ⟨m :: pre, post, stPre, ?_, ?_, ?_, e, hcmds⟩
      · rw [List.cons_append, hL]
      · rw [← h2, htr, List.cons_append]
      · have h4 : runNamesOk v env P (m :: pre) st = runNamesOk v env P pre st' := by
          simp [runNamesOk, hc]
        rw [h4, hok]
    | fail e stf' =>
      have h1 : runNames v env P (m :: rest) st = ([m], .fail m stf') := by
        simp [runNames, hc]
      rw [h1, Prod.mk.injEq] at h
      obtain ⟨h2, h3⟩ := h
      obtain ⟨hmn, hstf⟩ := RunRes.fail.inj h3
      refine ⟨[], rest, st, ?_, ?_, rfl, e, ?_⟩
      · rw [List.nil_append, ← hmn]
      · rw [← h2, ← hmn]
        rfl
      · rw [hmn, hstf] at hc
        exact hc

/-- C1: for every run of the composite build, in either variant, a failure
at any step halts the run exactly there: the step list splits around the
failing step, the trace is the successful prefix plus the failing step, no
step listed after the failing one appears in the trace, and the final state
is exactly the state the completed prefix produced as further modified by
the failing step itself — no completed step's effects are rolled back. -/
theorem build_halts_on_first_failure (v : Variant) (env : Env) (P : Params)
    (st stf : St) (n : StepName) (tr : List StepName)
    (h : runBuild v env P st = (tr, .fail n stf)) :
    ∃ pre post stPre,
      buildNames v = pre ++ n :: post ∧
      tr = pre ++ [n] ∧
      post.all (fun m => !(memB m tr)) = true ∧
      runNamesOk v env P pre st = some stPre ∧
      ∃ e, runCmds env P (stepCmds v P n) stPre = .fail e stf := by
  obtain ⟨pre, post, stPre, hL, htr, hok, e, hcmds⟩ :=
    runNames_fail_split v env P (buildNames v) st stf n tr h
  refine ⟨pre, post, stPre, hL, htr, ?_, hok, e, hcmds⟩
  have hnd : (buildNames v).Nodup := by cases v <;> decide
  rw [hL, List.nodup_append] at hnd
  obtain ⟨-, hnd2, hdisj⟩ := hnd
  rw [List.nodup_cons] at hnd2
  rw [List.all_eq_true]
  intro m hm
  rw [Bool.not_eq_true', memB_eq_false_iff, htr]
  intro hmem
  rcases List.mem_append.mp hmem with hp | hs
  · exact hdisj hp (List.mem_cons_of_mem _ hm)
  · have hmn : m = n := by simpa using hs
    exact hnd2.1 (hmn ▸ hm)

/-- Environment in which every external command fails (for instance because
`npx` is not installed). -/
def failEnv : Env := fun _ _ st => .fail none st

/-- Concrete parameters used by the witnesses. -/
def demoParams : Params := ⟨"demo", "tmp"⟩

/-- Empty starting state used by the witnesses. -/
def emptySt : St := ⟨[], []⟩

/-- Witness for C1: with every external command failing, the plain build
halts at `create-react-app` with nothing executed after it. -/
theorem build_halts_on_first_failure_witness :
    ∃ pre post stPre,
      buildNames .js = pre ++ StepName.createReactApp :: post ∧
      [StepName.createReactApp] = pre ++ [StepName.createReactApp] ∧
      post.all (fun m => !(memB m [StepName.createReactApp])) = true ∧
      runNamesOk .js failEnv demoParams pre emptySt = some stPre ∧
      ∃ e, runCmds failEnv demoParams
        (stepCmds .js demoParams .createReactApp) stPre = .fail e emptySt :=
  build_halts_on_first_failure .js failEnv demoParams emptySt emptySt
    .createReactApp [.createReactApp] (by rfl)

/-- C2, counterexample: the ordering asserted by the claim fails on the
plain variant's build sequence, where `configure-prettier` is listed before
the package-installation steps. -/
theorem claimedBuildOrder_false : claimC2OrderB (buildNames .js) = false := by
  decide

/-- C2, amended: the build sequences run skeleton generation first; in the
plain variant the formatting step runs second, before the installation
group, and in the TypeScript variant it is absent; the installation group
runs next, then the template copy, then the finalize step last; and every
run's trace follows the sequence in order. -/
theorem build_order_amended :
    amendedC2OrderB (buildNames .js) true = true ∧
    amendedC2OrderB (buildNames .ts) false = true ∧
    (∀ env P st, TraceLeads (runBuild .js env P st).1 (buildNames .js)) ∧
    (∀ env P st, TraceLeads (runBuild .ts env P st).1 (buildNames .ts)) := by
  refine ⟨by decide, by decide, ?_, ?_⟩ <;>
    exact fun env P st => runNames_trace _ env P _ st

/-- C3: in the plain variant the `git-commit` recipe begins with
`mv -r $(NAME) $(PARENT_DIR)/.`, and `mv` accepts no `-r` option, so the
first recipe line exits with a usage error before touching anything: the
finalize step always fails with the state completely unchanged — the
project directory is never moved and no commit is ever created, whatever
the parameters, the filesystem, and the external tools. -/
theorem js_gitCommit_always_fails (env : Env) (P : Params) (st : St) :
    runCmds env P (stepCmds .js P .gitCommit) st = .fail (some .badOption) st := by
  rfl

/-- The working-directory discipline asserted by claim C6, stated from the
claim's words: every step of the build sequence except the first runs all
its commands in the generated project root, while the first step runs in
the invocation root. -/
def claimC6B (v : Variant) (P : Params) : Bool :=
  match buildNames v with
  | [] => true
  | first :: rest =>
    (stepCmds v P first).all (fun c => decide (cmdWd c = Wd.invocationRoot)) &&
    rest.all (fun n =>
      (stepCmds v P n).all (fun c => decide (cmdWd c = Wd.projectRoot)))

/-- C6, counterexample: the claimed discipline fails on the plain variant —
the `copy-files` recipe (and the `mv` line of `git-commit`) runs in the
invocation root, addressing the project by `$(NAME)`-prefixed paths. -/
theorem claimedWorkdir_false : claimC6B .js (defaultParams .js) = false := by
  decide

/-- C6, amended: the formatting and package-installation steps run their
commands in the generated project root; the skeleton-generation and
copy-templates steps run in the invocation root; and the finalize step's
move command runs in the invocation root while its three repository
commands run in the moved project directory under the parent directory. -/
theorem workdir_amended (v : Variant) (P : Params) :
    (stepCmds v P .createReactApp).map cmdWd = [.invocationRoot] ∧
    (stepCmds v P .configurePrettier).map cmdWd = [.projectRoot, .projectRoot] ∧
    (stepCmds v P .installRedux).map cmdWd = [.projectRoot] ∧
    (stepCmds v P .installRouter).map cmdWd = [.projectRoot] ∧
    (stepCmds v P .installBootstrap).map cmdWd = [.projectRoot] ∧
    (stepCmds v P .installStyledComponents).map cmdWd = [.projectRoot] ∧
    (stepCmds v P .copyFiles).all
      (fun c => decide (cmdWd c = Wd.invocationRoot)) = true ∧
    (stepCmds v P .gitCommit).map cmdWd =
      [.invocationRoot, .movedProject, .movedProject, .movedProject] := by
  cases v <;> exact ⟨rfl, rfl, rfl, rfl, rfl, rfl, rfl, rfl⟩

/-- C8: with both command-line parameters omitted, `NAME` defaults to the
single-quoted literal placeholder — which the shell unquotes to
`my_project` wherever a recipe line expands it — and `PARENT_DIR` defaults
to `.`, the current directory, in both repository variants. -/
theorem default_parameters :
    shellUnquote (defaultParams .js).name = "my_project" ∧
    (defaultParams .js).parentDir = "." ∧
    shellUnquote (defaultParams .ts).name = "my_project" ∧
    (defaultParams .ts).parentDir = "." := by
  refine ⟨by decide, rfl, by decide, rfl⟩

/-- C9: `configure-prettier` is not among the prerequisites of the
TypeScript variant's `build`, and no run of that composite build ever
executes it, so the two-command merge-and-hook recipe runs only when the
target is invoked directly on its own. -/
theorem ts_build_omits_configurePrettier :
    memB .configurePrettier (buildNames .ts) = false ∧
    (∀ env P st, memB .configurePrettier (runBuild .ts env P st).1 = false) ∧
    (∀ P, (stepCmds .ts P .configurePrettier).length = 2) := by
  refine ⟨by decide, ?_, fun P => rfl⟩
  intro env P st
  obtain ⟨t, ht⟩ := runNames_trace .ts env P (buildNames .ts) st
  rw [memB_eq_false_iff]
  intro hmem
  have hin : StepName.configurePrettier ∈ buildNames .ts :=
    ht ▸ List.mem_append_left t hmem
  exact absurd hin (by decide)

/-- Unfolding of `lookupNode` on a `cons`. -/
theorem lookupNode_cons (q : FPath) (n : Node) (fs : FS) (p : FPath) :
    lookupNode ((q, n) :: fs) p = if p = q then some n else lookupNode fs p := rfl

/-- Running `mkdir -p` keeps every existing file. -/
theorem mkdirUnder_file_fwd :
    ∀ (ds : List FPath) (fs fs' : FS), mkdirUnder ds fs = .ok fs' →
      ∀ q c, lookupNode fs q = some (Node.file c) →
        lookupNode fs' q = some (Node.file c) := by
  intro ds
  induction ds with
  | nil =>
    intro fs fs' h q c hq
    simp only [mkdirUnder, FsRes.ok.injEq] at h
    subst h
    exact hq
  | cons d ds ih =>
    intro fs fs' h q c hq
    simp only [mkdirUnder] at h
    split at h
    · exact ih fs fs' h q c hq
    · split at h
      · rename_i hdir hnone
        refine ih _ _ h q c ?_
        rw [lookupNode_cons]
        by_cases hqd : q = d
        · subst hqd
          rw [hq] at hnone
          simp at hnone
        · rw [if_neg hqd]
          exact hq
      · cases h

/-- Running `mkdir -p` creates no files: a file in the result was already there. -/
theorem mkdirUnder_file_bwd :
    ∀ (ds : List FPath) (fs fs' : FS), mkdirUnder ds fs = .ok fs' →
      ∀ q c, lookupNode fs' q = some (Node.file c) →
        lookupNode fs q = some (Node.file c) := by
  intro ds
  induction ds with
  | nil =>
    intro fs fs' h q c hq
    simp only [mkdirUnder, FsRes.ok.injEq] at h
    subst h
    exact hq
  | cons d ds ih =>
    intro fs fs' h q c hq
    simp only [mkdirUnder] at h
    split at h
    · exact ih fs fs' h q c hq
    · split at h
      · have h2 := ih _ _ h q c hq
        rw [lookupNode_cons] at h2
        by_cases hqd : q = d
        · rw [if_pos hqd] at h2
          simp at h2
        · rw [if_neg hqd] at h2
          exact h2
      · cases h

/-- Running `mkdir -p` keeps every existing directory. -/
theorem mkdirUnder_dir_fwd :
    ∀ (ds : List FPath) (fs fs' : FS), mkdirUnder ds fs = .ok fs' →
      ∀ q, lookupNode fs q = some Node.dir → lookupNode fs' q = some Node.dir := by
  intro ds
  induction ds with
  | nil =>
    intro fs fs' h q hq
    simp only [mkdirUnder, FsRes.ok.injEq] at h
    subst h
    exact hq
  | cons d ds ih =>
    intro fs fs' h q hq
    simp only [mkdirUnder] at h
    split at h
    · exact ih fs fs' h q hq
    · split at h
      · rename_i hdir hnone
        refine ih _ _ h q ?_
        rw [lookupNode_cons]
        by_cases hqd : q = d
        · subst hqd
          rw [hq] at hnone
          simp at hnone
        · rw [if_neg hqd]
          exact hq
      · cases h

/-- A successful `mkdir -p` run makes every listed path a directory. -/
theorem mkdirUnder_creates :
    ∀ (ds : List FPath) (fs fs' : FS), mkdirUnder ds fs = .ok fs' →
      ∀ p ∈ ds, lookupNode fs' p = some Node.dir := by
  intro ds
  induction ds with
  | nil =>
    intro fs fs' _ p hp
    simp at hp
  | cons d ds ih =>
    intro fs fs' h p hp
    simp only [mkdirUnder] at h
    rcases List.mem_cons.mp hp with rfl | hp'
    · split at h
      · rename_i hdir
        exact mkdirUnder_dir_fwd ds fs fs' h p hdir
      · split at h
        · refine mkdirUnder_dir_fwd ds _ fs' h p ?_
          rw [lookupNode_cons, if_pos rfl]
        · cases h
    · split at h
      · exact ih fs fs' h p hp'
      · split at h
        · exact ih _ _ h p hp'
        · cases h

/-- Running `mkdir -p` over already-existing directories changes nothing. -/
theorem mkdirUnder_noop :
    ∀ (ds : List FPath) (fs : FS),
      (∀ p ∈ ds, lookupNode fs p = some Node.dir) → mkdirUnder ds fs = .ok fs := by
  intro ds
  induction ds with
  | nil => intro fs _; rfl
  | cons d ds ih =>
    intro fs hall
    have hd := hall d (List.mem_cons_self d ds)
    simp only [mkdirUnder, hd, if_true]
    exact ih fs (fun p hp => hall p (List.mem_cons_of_mem d hp))

/-- The only failure `mkdir -p` can report is a file blocking the path. -/
theorem mkdirUnder_err :
    ∀ (ds : List FPath) (fs fs₂ : FS) (e : FsErr),
      mkdirUnder ds fs = .err e fs₂ → e = .fileInPath := by
  intro ds
  induction ds with
  | nil => intro fs fs₂ e h; cases h
  | cons d ds ih =>
    intro fs fs₂ e h
    simp only [mkdirUnder] at h
    split at h
    · exact ih _ _ _ h
    · split at h
      · exact ih _ _ _ h
      · exact (FsRes.err.inj h).1.symm

/-- Unfolding of `cpTarget` when the destination is an existing directory. -/
theorem cpTarget_pos {fs : FS} {s d : FPath}
    (h : lookupNode fs d = some Node.dir) :
    cpTarget fs s d = d ++ [s.getLastD ""] := by
  unfold cpTarget
  rw [if_pos h]

/-- Unfolding of `cpTarget` when the destination is not a directory. -/
theorem cpTarget_neg {fs : FS} {s d : FPath}
    (h : lookupNode fs d ≠ some Node.dir) :
    cpTarget fs s d = d := by
  unfold cpTarget
  rw [if_neg h]

/-- Case analysis on the write target of a copy. -/
theorem cpTarget_cases (fs : FS) (s d : FPath) :
    (lookupNode fs d = some Node.dir ∧ cpTarget fs s d = d ++ [s.getLastD ""]) ∨
    (lookupNode fs d ≠ some Node.dir ∧ cpTarget fs s d = d) := by
  by_cases h : lookupNode fs d = some Node.dir
  · exact Or.inl ⟨h, cpTarget_pos h⟩
  · exact Or.inr ⟨h, cpTarget_neg h⟩

/-- The write target only depends on the destination's entry. -/
theorem cpTarget_congr {g f : FS} {s d : FPath}
    (h : lookupNode g d = lookupNode f d) :
    cpTarget g s d = cpTarget f s d := by
  unfold cpTarget
  rw [h]

/-- A path different from the destination and from everything inside the
destination is different from the write target. -/
theorem ne_cpTarget_of {fs : FS} {s d q : FPath}
    (h1 : q ≠ d) (h2 : ∀ x, q ≠ d ++ [x]) : q ≠ cpTarget fs s d := by
  rcases cpTarget_cases fs s d with ⟨-, ht⟩ | ⟨-, ht⟩ <;> rw [ht]
  · exact h2 _
  · exact h1

/-- Success inversion for `cp`: the source was a file, the write target was
not a directory, the target's parent existed, and the result is the target
overwritten with the source's content. -/
theorem cp_ok_elim {fs fs' : FS} {s d : FPath} (h : cp fs s d = .ok fs') :
    ∃ c, lookupNode fs s = some (Node.file c) ∧
      lookupNode fs (cpTarget fs s d) ≠ some Node.dir ∧
      ((cpTarget fs s d).dropLast = [] ∨
        lookupNode fs (cpTarget fs s d).dropLast = some Node.dir) ∧
      fs' = (cpTarget fs s d, Node.file c) :: fs := by
  unfold cp at h
  split at h
  · rename_i c hs
    split at h
    · cases h
    · split at h
      · rename_i hdir hpar
        exact ⟨c, hs, hdir, hpar, (FsRes.ok.inj h).symm⟩
      · cases h
  · cases h

/-- A successful copy keeps every existing directory: the only entry it adds
is a file, at a path that was not a directory. -/
theorem cp_ok_preserves_dir {fs fs' : FS} {s d : FPath} (h : cp fs s d = .ok fs') :
    ∀ q, lookupNode fs q = some Node.dir → lookupNode fs' q = some Node.dir := by
  obtain ⟨c, -, hnt, -, rfl⟩ := cp_ok_elim h
  intro q hq
  rw [lookupNode_cons]
  by_cases hqt : q = cpTarget fs s d
  · rw [← hqt] at hnt
    exact absurd hq hnt
  · rw [if_neg hqt]
    exact hq

/-- Replaying a copy whose target already holds the source's content
succeeds and changes no path's entry. -/
theorem cp_fix {fs : FS} {s d : FPath} {c : String}
    (hs : lookupNode fs s = some (Node.file c))
    (hfix : lookupNode fs (cpTarget fs s d) = some (Node.file c))
    (hpar : d.dropLast = [] ∨ lookupNode fs d.dropLast = some Node.dir) :
    ∃ fs', cp fs s d = .ok fs' ∧ ∀ q, lookupNode fs' q = lookupNode fs q := by
  have hparT : (cpTarget fs s d).dropLast = [] ∨
      lookupNode fs (cpTarget fs s d).dropLast = some Node.dir := by
    by_cases hdd : lookupNode fs d = some Node.dir
    · right
      rw [cpTarget_pos hdd, List.dropLast_concat]
      exact hdd
    · rw [cpTarget_neg hdd]
      exact hpar
  refine ⟨(cpTarget fs s d, Node.file c) :: fs, ?_, ?_⟩
  · unfold cp
    simp only [hs]
    rw [if_neg (by rw [hfix]; simp), if_pos hparT]
  · intro q
    rw [lookupNode_cons]
    by_cases hq : q = cpTarget fs s d
    · rw [if_pos hq, hq, hfix]
    · rw [if_neg hq]

/-- Failure inversion for `cp`: the filesystem is returned unchanged, and a
missing-destination-parent failure can only be reported when the write
target's parent is indeed absent. -/
theorem cp_err_elim {fs fs₂ : FS} {s d : FPath} {e : FsErr}
    (h : cp fs s d = .err e fs₂) :
    fs₂ = fs ∧ (e = .dstParentMissing →
      ¬((cpTarget fs s d).dropLast = [] ∨
        lookupNode fs (cpTarget fs s d).dropLast = some Node.dir)) := by
  unfold cp at h
  split at h
  · split at h
    · obtain ⟨he, hfs⟩ := FsRes.err.inj h
      refine ⟨hfs.symm, fun hpe => ?_⟩
      rw [← he] at hpe
      cases hpe
    · split at h
      · cases h
      · rename_i hdir hpar
        obtain ⟨he, hfs⟩ := FsRes.err.inj h
        exact ⟨hfs.symm, fun _ => hpar⟩
  · obtain ⟨he, hfs⟩ := FsRes.err.inj h
    refine ⟨hfs.symm, fun hpe => ?_⟩
    rw [← he] at hpe
    cases hpe

/-- Running `mkdir -p` only creates the listed directories: a directory in
the result was listed or was already a directory. -/
theorem mkdirUnder_dir_bwd :
    ∀ (ds : List FPath) (fs fs' : FS), mkdirUnder ds fs = .ok fs' →
      ∀ q, lookupNode fs' q = some Node.dir →
        q ∈ ds ∨ lookupNode fs q = some Node.dir := by
  intro ds
  induction ds with
  | nil =>
    intro fs fs' h q hq
    simp only [mkdirUnder, FsRes.ok.injEq] at h
    subst h
    exact Or.inr hq
  | cons d ds ih =>
    intro fs fs' h q hq
    simp only [mkdirUnder] at h
    split at h
    · rcases ih _ _ h q hq with hm | hd
      · exact Or.inl (List.mem_cons_of_mem _ hm)
      · exact Or.inr hd
    · split at h
      · rcases ih _ _ h q hq with hm | hd
        · exact Or.inl (List.mem_cons_of_mem _ hm)
        · rw [lookupNode_cons] at hd
          by_cases hqd : q = d
          · exact Or.inl (hqd ▸ List.mem_cons_self d ds)
          · rw [if_neg hqd] at hd
            exact Or.inr hd
      · cases h

/-- Run a list of file-system commands in order, stopping at the first
failure. -/
def runFsOps : List FSOp → FS → FsRes
  | [], fs => .ok fs
  | op :: ops, fs =>
    match applyFsOp fs op with
    | .ok fs' => runFsOps ops fs'
    | .err e fs₂ => .err e fs₂

/-- Unfolding lemma for `runFsOps` on a non-empty command list. -/
theorem runFsOps_cons (op : FSOp) (ops : List FSOp) (fs : FS) :
    runFsOps (op :: ops) fs =
      match applyFsOp fs op with
      | .ok fs' => runFsOps ops fs'
      | .err e fs₂ => .err e fs₂ := rfl

/-- A chain of file-system commands succeeds iff its first command succeeds
and the rest succeed from the result. -/
theorem runFsOps_cons_ok_iff {op : FSOp} {ops : List FSOp} {fs fs' : FS} :
    runFsOps (op :: ops) fs = .ok fs' ↔
      ∃ fs₁, applyFsOp fs op = .ok fs₁ ∧ runFsOps ops fs₁ = .ok fs' := by
  constructor
  · intro h
    rw [runFsOps_cons] at h
    split at h
    · rename_i fs₁ heq
      exact ⟨fs₁, heq, h⟩
    · cases h
  · rintro ⟨fs₁, h1, h2⟩
    rw [runFsOps_cons, h1]
    exact h2

/-- A file-system recipe line at the invocation root acts on the state's
filesystem alone, leaving the commit list unchanged. -/
theorem runCmd_fsOp_root (env : Env) (P : Params) (op : FSOp) (st : St) :
    runCmd env P (.fsOp .invocationRoot op) st =
      match applyFsOp st.fs op with
      | .ok fs' => .ok { st with fs := fs' }
      | .err e fs₂ => .fail (some e) { st with fs := fs₂ } := by
  cases op <;> rfl

/-- A recipe consisting solely of file-system commands at the invocation
root behaves as the corresponding pure file-system run. -/
theorem runCmds_fsOps (env : Env) (P : Params) :
    ∀ (ops : List FSOp) (st : St),
      runCmds env P (ops.map (Cmd.fsOp .invocationRoot)) st =
        match runFsOps ops st.fs with
        | .ok fs' => .ok { st with fs := fs' }
        | .err e fs₂ => .fail (some e) { st with fs := fs₂ } := by
  intro ops
  induction ops with
  | nil => intro st; rfl
  | cons op ops ih =>
    intro st
    rw [List.map_cons, runCmds_cons, runCmd_fsOp_root]
    cases h : applyFsOp st.fs op with
    | ok fs' =>
      simp only [runFsOps, h]
      cases h2 : runFsOps ops fs' with
      | ok f2 =>
        have h3 := ih { st with fs := fs' }
        simp only [h2] at h3
        simp only [h3]
      | err e2 f2 =>
        have h3 := ih { st with fs := fs' }
        simp only [h2] at h3
        simp only [h3]
    | err e fs₂ =>
      simp only [runFsOps, h]

/-- The prefixes of a three-component path. -/
theorem prefixesOf_three (a b c : String) :
    prefixesOf [a, b, c] = [[a], [a, b], [a, b, c]] := rfl

/-- A path is never equal to itself extended by one more component. -/
theorem ne_append_singleton (l : FPath) (x : String) : l ≠ l ++ [x] := by
  intro h
  have hlen := congrArg List.length h
  simp at hlen

/-- Full characterisation of a successful run of the plain variant's
`copy-files` file-system commands: the four template sources were present
as files, with the same content before and after the run; the whole
project source tree exists as directories afterwards; and each of the four
fixed destination paths either was a pre-existing directory — then it still
is one and the template's content sits inside it under the source's base
name — or now holds exactly its source's content. -/
theorem copyFs_js_char (N : String) (fs fs' : FS)
    (h : runFsOps (copyOps .js N) fs = .ok fs') :
    ∃ c₁ c₂ c₃ c₄,
      lookupNode fs ["boilerplate-action.js"] = some (Node.file c₁) ∧
      lookupNode fs ["boilerplate-reducer.js"] = some (Node.file c₂) ∧
      lookupNode fs ["boilerplate-app.js"] = some (Node.file c₃) ∧
      lookupNode fs ["boilerplate-index.js"] = some (Node.file c₄) ∧
      lookupNode fs' ["boilerplate-action.js"] = some (Node.file c₁) ∧
      lookupNode fs' ["boilerplate-reducer.js"] = some (Node.file c₂) ∧
      lookupNode fs' ["boilerplate-app.js"] = some (Node.file c₃) ∧
      lookupNode fs' ["boilerplate-index.js"] = some (Node.file c₄) ∧
      lookupNode fs' [N] = some Node.dir ∧
      lookupNode fs' [N, "src"] = some Node.dir ∧
      lookupNode fs' [N, "src", "components"] = some Node.dir ∧
      lookupNode fs' [N, "src", "actions"] = some Node.dir ∧
      lookupNode fs' [N, "src", "reducers"] = some Node.dir ∧
      ((lookupNode fs [N, "src", "actions", "index.js"] = some Node.dir ∧
        lookupNode fs' [N, "src", "actions", "index.js"] = some Node.dir ∧
        lookupNode fs' [N, "src", "actions", "index.js", "boilerplate-action.js"] =
          some (Node.file c₁)) ∨
        lookupNode fs' [N, "src", "actions", "index.js"] = some (Node.file c₁)) ∧
      ((lookupNode fs [N, "src", "reducers", "index.js"] = some Node.dir ∧
        lookupNode fs' [N, "src", "reducers", "index.js"] = some Node.dir ∧
        lookupNode fs' [N, "src", "reducers", "index.js", "boilerplate-reducer.js"] =
          some (Node.file c₂)) ∨
        lookupNode fs' [N, "src", "reducers", "index.js"] = some (Node.file c₂)) ∧
      ((lookupNode fs [N, "src", "App.js"] = some Node.dir ∧
        lookupNode fs' [N, "src", "App.js"] = some Node.dir ∧
        lookupNode fs' [N, "src", "App.js", "boilerplate-app.js"] =
          some (Node.file c₃)) ∨
        lookupNode fs' [N, "src", "App.js"] = some (Node.file c₃)) ∧
      ((lookupNode fs [N, "src", "index.js"] = some Node.dir ∧
        lookupNode fs' [N, "src", "index.js"] = some Node.dir ∧
        lookupNode fs' [N, "src", "index.js", "boilerplate-index.js"] =
          some (Node.file c₄)) ∨
        lookupNode fs' [N, "src", "index.js"] = some (Node.file c₄)) := by
  simp only [copyOps] at h
  rw [runFsOps_cons_ok_iff] at h
  obtain ⟨f1, hm1, h⟩ := h
  rw [runFsOps_cons_ok_iff] at h
  obtain ⟨f2, hm2, h⟩ := h
  rw [runFsOps_cons_ok_iff] at h
  obtain ⟨f3, hm3, h⟩ := h
  rw [runFsOps_cons_ok_iff] at h
  obtain ⟨f4, hp1, h⟩ := h
  rw [runFsOps_cons_ok_iff] at h
  obtain ⟨f5, hp2, h⟩ := h
  rw [runFsOps_cons_ok_iff] at h
  obtain ⟨f6, hp3, h⟩ := h
  rw [runFsOps_cons_ok_iff] at h
  obtain ⟨f7, hp4, h⟩ := h
  have hf7 : f7 = fs' := by simpa [runFsOps] using h
  subst hf7
  simp only [applyFsOp] at hm1 hm2 hm3 hp1 hp2 hp3 hp4
  rw [prefixesOf_three] at hm1 hm2 hm3
  obtain ⟨c₁, hs₁, -, -, rfl⟩ := cp_ok_elim hp1
  obtain ⟨c₂, hs₂, -, -, rfl⟩ := cp_ok_elim hp2
  obtain ⟨c₃, hs₃, -, -, rfl⟩ := cp_ok_elim hp3
  obtain ⟨c₄, hs₄, -, -, rfl⟩ := cp_ok_elim hp4
  have hb : ∀ q c, lookupNode f3 q = some (Node.file c) →
      lookupNode fs q = some (Node.file c) := fun q c hq =>
    mkdirUnder_file_bwd _ _ _ hm1 q c
      (mkdirUnder_file_bwd _ _ _ hm2 q c (mkdirUnder_file_bwd _ _ _ hm3 q c hq))
  have hs₂' : lookupNode f3 ["boilerplate-reducer.js"] = some (Node.file c₂) := by
    rw [lookupNode_cons,
      if_neg (ne_cpTarget_of (by simp) (fun x => by simp))] at hs₂
    exact hs₂
  have hs₃' : lookupNode f3 ["boilerplate-app.js"] = some (Node.file c₃) := by
    rw [lookupNode_cons, if_neg (ne_cpTarget_of (by simp) (fun x => by simp)),
      lookupNode_cons,
      if_neg (ne_cpTarget_of (by simp) (fun x => by simp))] at hs₃
    exact hs₃
  have hs₄' : lookupNode f3 ["boilerplate-index.js"] = some (Node.file c₄) := by
    rw [lookupNode_cons, if_neg (ne_cpTarget_of (by simp) (fun x => by simp)),
      lookupNode_cons, if_neg (ne_cpTarget_of (by simp) (fun x => by simp)),
      lookupNode_cons,
      if_neg (ne_cpTarget_of (by simp) (fun x => by simp))] at hs₄
    exact hs₄
  have hdN3 : lookupNode f3 [N] = some Node.dir :=
    mkdirUnder_dir_fwd _ _ _ hm3 _ (mkdirUnder_dir_fwd _ _ _ hm2 _
      (mkdirUnder_creates _ _ _ hm1 [N] (by simp)))
  have hdNs3 : lookupNode f3 [N, "src"] = some Node.dir :=
    mkdirUnder_dir_fwd _ _ _ hm3 _ (mkdirUnder_dir_fwd _ _ _ hm2 _
      (mkdirUnder_creates _ _ _ hm1 [N, "src"] (by simp)))
  have hdNsc3 : lookupNode f3 [N, "src", "components"] = some Node.dir :=
    mkdirUnder_dir_fwd _ _ _ hm3 _ (mkdirUnder_dir_fwd _ _ _ hm2 _
      (mkdirUnder_creates _ _ _ hm1 [N, "src", "components"] (by simp)))
  have hdNsa3 : lookupNode f3 [N, "src", "actions"] = some Node.dir :=
    mkdirUnder_dir_fwd _ _ _ hm3 _
      (mkdirUnder_creates _ _ _ hm2 [N, "src", "actions"] (by simp))
  have hdNsr3 : lookupNode f3 [N, "src", "reducers"] = some Node.dir :=
    mkdirUnder_creates _ _ _ hm3 [N, "src", "reducers"] (by simp)
  refine ⟨c₁, c₂, c₃, c₄, hb _ _ hs₁, hb _ _ hs₂', hb _ _ hs₃', hb _ _ hs₄',
    ?_, ?_, ?_, ?_, ?_, ?_, ?_, ?_, ?_, ?_, ?_, ?_, ?_⟩
  · rw [lookupNode_cons, if_neg (ne_cpTarget_of (by simp) (fun x => by simp)),
      lookupNode_cons, if_neg (ne_cpTarget_of (by simp) (fun x => by simp)),
      lookupNode_cons, if_neg (ne_cpTarget_of (by simp) (fun x => by simp)),
      lookupNode_cons, if_neg (ne_cpTarget_of (by simp) (fun x => by simp))]
    exact hs₁
  · rw [lookupNode_cons, if_neg (ne_cpTarget_of (by simp) (fun x => by simp)),
      lookupNode_cons, if_neg (ne_cpTarget_of (by simp) (fun x => by simp)),
      lookupNode_cons, if_neg (ne_cpTarget_of (by simp) (fun x => by simp)),
      lookupNode_cons, if_neg (ne_cpTarget_of (by simp) (fun x => by simp))]
    exact hs₂'
  · rw [lookupNode_cons, if_neg (ne_cpTarget_of (by simp) (fun x => by simp)),
      lookupNode_cons, if_neg (ne_cpTarget_of (by simp) (fun x => by simp)),
      lookupNode_cons, if_neg (ne_cpTarget_of (by simp) (fun x => by simp)),
      lookupNode_cons, if_neg (ne_cpTarget_of (by simp) (fun x => by simp))]
    exact hs₃'
  · rw [lookupNode_cons, if_neg (ne_cpTarget_of (by simp) (fun x => by simp)),
      lookupNode_cons, if_neg (ne_cpTarget_of (by simp) (fun x => by simp)),
      lookupNode_cons, if_neg (ne_cpTarget_of (by simp) (fun x => by simp)),
      lookupNode_cons, if_neg (ne_cpTarget_of (by simp) (fun x => by simp))]
    exact hs₄'
  · rw [lookupNode_cons, if_neg (ne_cpTarget_of (by simp) (fun x => by simp)),
      lookupNode_cons, if_neg (ne_cpTarget_of (by simp) (fun x => by simp)),
      lookupNode_cons, if_neg (ne_cpTarget_of (by simp) (fun x => by simp)),
      lookupNode_cons, if_neg (ne_cpTarget_of (by simp) (fun x => by simp))]
    exact hdN3
  · rw [lookupNode_cons, if_neg (ne_cpTarget_of (by simp) (fun x => by simp)),
      lookupNode_cons, if_neg (ne_cpTarget_of (by simp) (fun x => by simp)),
      lookupNode_cons, if_neg (ne_cpTarget_of (by simp) (fun x => by simp)),
      lookupNode_cons, if_neg (ne_cpTarget_of (by simp) (fun x => by simp))]
    exact hdNs3
  · rw [lookupNode_cons, if_neg (ne_cpTarget_of (by simp) (fun x => by simp)),
      lookupNode_cons, if_neg (ne_cpTarget_of (by simp) (fun x => by simp)),
      lookupNode_cons, if_neg (ne_cpTarget_of (by simp) (fun x => by simp)),
      lookupNode_cons, if_neg (ne_cpTarget_of (by simp) (fun x => by simp))]
    exact hdNsc3
  · rw [lookupNode_cons, if_neg (ne_cpTarget_of (by simp) (fun x => by simp)),
      lookupNode_cons, if_neg (ne_cpTarget_of (by simp) (fun x => by simp)),
      lookupNode_cons, if_neg (ne_cpTarget_of (by simp) (fun x => by simp)),
      lookupNode_cons, if_neg (ne_cpTarget_of (by simp) (fun x => by simp))]
    exact hdNsa3
  · rw [lookupNode_cons, if_neg (ne_cpTarget_of (by simp) (fun x => by simp)),
      lookupNode_cons, if_neg (ne_cpTarget_of (by simp) (fun x => by simp)),
      lookupNode_cons, if_neg (ne_cpTarget_of (by simp) (fun x => by simp)),
      lookupNode_cons, if_neg (ne_cpTarget_of (by simp) (fun x => by simp))]
    exact hdNsr3
  · rcases cpTarget_cases f3 ["boilerplate-action.js"]
      [N, "src", "actions", "index.js"] with ⟨hdd, ht⟩ | ⟨hdd, ht⟩
    · have ht' : cpTarget f3 ["boilerplate-action.js"]
          [N, "src", "actions", "index.js"] =
          [N, "src", "actions", "index.js", "boilerplate-action.js"] := ht
      refine Or.inl ⟨?_, ?_, ?_⟩
      · rcases mkdirUnder_dir_bwd _ _ _ hm3 _ hdd with hmem | h2
        · simp at hmem
        rcases mkdirUnder_dir_bwd _ _ _ hm2 _ h2 with hmem | h3
        · simp at hmem
        rcases mkdirUnder_dir_bwd _ _ _ hm1 _ h3 with hmem | h4
        · simp at hmem
        exact h4
      · rw [lookupNode_cons, if_neg (ne_cpTarget_of (by simp) (fun x => by simp)),
          lookupNode_cons, if_neg (ne_cpTarget_of (by simp) (fun x => by simp)),
          lookupNode_cons, if_neg (ne_cpTarget_of (by simp) (fun x => by simp)),
          lookupNode_cons, if_neg (by rw [ht]; exact ne_append_singleton _ _)]
        exact hdd
      · rw [lookupNode_cons, if_neg (ne_cpTarget_of (by simp) (fun x => by simp)),
          lookupNode_cons, if_neg (ne_cpTarget_of (by simp) (fun x => by simp)),
          lookupNode_cons, if_neg (ne_cpTarget_of (by simp) (fun x => by simp)),
          lookupNode_cons, if_pos ht'.symm]
    · refine Or.inr ?_
      rw [lookupNode_cons, if_neg (ne_cpTarget_of (by simp) (fun x => by simp)),
        lookupNode_cons, if_neg (ne_cpTarget_of (by simp) (fun x => by simp)),
        lookupNode_cons, if_neg (ne_cpTarget_of (by simp) (fun x => by simp)),
        lookupNode_cons, if_pos ht.symm]
  · rcases cpTarget_cases
      ((cpTarget f3 ["boilerplate-action.js"] [N, "src", "actions", "index.js"],
        Node.file c₁) :: f3)
      ["boilerplate-reducer.js"] [N, "src", "reducers", "index.js"]
      with ⟨hdd, ht⟩ | ⟨hdd, ht⟩
    · have ht' : cpTarget
          ((cpTarget f3 ["boilerplate-action.js"] [N, "src", "actions", "index.js"],
            Node.file c₁) :: f3)
          ["boilerplate-reducer.js"] [N, "src", "reducers", "index.js"] =
          [N, "src", "reducers", "index.js", "boilerplate-reducer.js"] := ht
      refine Or.inl ⟨?_, ?_, ?_⟩
      · rw [lookupNode_cons,
          if_neg (ne_cpTarget_of (by simp) (fun x => by simp))] at hdd
        rcases mkdirUnder_dir_bwd _ _ _ hm3 _ hdd with hmem | h2
        · simp at hmem
        rcases mkdirUnder_dir_bwd _ _ _ hm2 _ h2 with hmem | h3
        · simp at hmem
        rcases mkdirUnder_dir_bwd _ _ _ hm1 _ h3 with hmem | h4
        · simp at hmem
        exact h4
      · rw [lookupNode_cons,
          if_neg (ne_cpTarget_of (by simp) (fun x => by simp))] at hdd
        rw [lookupNode_cons, if_neg (ne_cpTarget_of (by simp) (fun x => by simp)),
          lookupNode_cons, if_neg (ne_cpTarget_of (by simp) (fun x => by simp)),
          lookupNode_cons, if_neg (by rw [ht]; exact ne_append_singleton _ _),
          lookupNode_cons, if_neg (ne_cpTarget_of (by simp) (fun x => by simp))]
        exact hdd
      · rw [lookupNode_cons, if_neg (ne_cpTarget_of (by simp) (fun x => by simp)),
          lookupNode_cons, if_neg (ne_cpTarget_of (by simp) (fun x => by simp)),
          lookupNode_cons, if_pos ht'.symm]
    · refine Or.inr ?_
      rw [lookupNode_cons, if_neg (ne_cpTarget_of (by simp) (fun x => by simp)),
        lookupNode_cons, if_neg (ne_cpTarget_of (by simp) (fun x => by simp)),
        lookupNode_cons, if_pos ht.symm]
  · rcases cpTarget_cases
      ((cpTarget
          ((cpTarget f3 ["boilerplate-action.js"] [N, "src", "actions", "index.js"],
            Node.file c₁) :: f3)
          ["boilerplate-reducer.js"] [N, "src", "reducers", "index.js"],
        Node.file c₂) ::
        (cpTarget f3 ["boilerplate-action.js"] [N, "src", "actions", "index.js"],
          Node.file c₁) :: f3)
      ["boilerplate-app.js"] [N, "src", "App.js"]
      with ⟨hdd, ht⟩ | ⟨hdd, ht⟩
    · have ht' : cpTarget
          ((cpTarget
              ((cpTarget f3 ["boilerplate-action.js"]
                  [N, "src", "actions", "index.js"], Node.file c₁) :: f3)
              ["boilerplate-reducer.js"] [N, "src", "reducers", "index.js"],
            Node.file c₂) ::
            (cpTarget f3 ["boilerplate-action.js"] [N, "src", "actions", "index.js"],
              Node.file c₁) :: f3)
          ["boilerplate-app.js"] [N, "src", "App.js"] =
          [N, "src", "App.js", "boilerplate-app.js"] := ht
      refine Or.inl ⟨?_, ?_, ?_⟩
      · rw [lookupNode_cons, if_neg (ne_cpTarget_of (by simp) (fun x => by simp)),
          lookupNode_cons,
          if_neg (ne_cpTarget_of (by simp) (fun x => by simp))] at hdd
        rcases mkdirUnder_dir_bwd _ _ _ hm3 _ hdd with hmem | h2
        · simp at hmem
        rcases mkdirUnder_dir_bwd _ _ _ hm2 _ h2 with hmem | h3
        · simp at hmem
        rcases mkdirUnder_dir_bwd _ _ _ hm1 _ h3 with hmem | h4
        · simp at hmem
        exact h4
      · rw [lookupNode_cons, if_neg (ne_cpTarget_of (by simp) (fun x => by simp)),
          lookupNode_cons, if_neg (by rw [ht]; exact ne_append_singleton _ _)]
        exact hdd
      · rw [lookupNode_cons, if_neg (ne_cpTarget_of (by simp) (fun x => by simp)),
          lookupNode_cons, if_pos ht'.symm]
    · refine Or.inr ?_
      rw [lookupNode_cons, if_neg (ne_cpTarget_of (by simp) (fun x => by simp)),
        lookupNode_cons, if_pos ht.symm]
  · rcases cpTarget_cases
      ((cpTarget
          ((cpTarget
              ((cpTarget f3 ["boilerplate-action.js"]
                  [N, "src", "actions", "index.js"], Node.file c₁) :: f3)
              ["boilerplate-reducer.js"] [N, "src", "reducers", "index.js"],
            Node.file c₂) ::
            (cpTarget f3 ["boilerplate-action.js"] [N, "src", "actions", "index.js"],
              Node.file c₁) :: f3)
          ["boilerplate-app.js"] [N, "src", "App.js"], Node.file c₃) ::
        (cpTarget
            ((cpTarget f3 ["boilerplate-action.js"] [N, "src", "actions", "index.js"],
              Node.file c₁) :: f3)
            ["boilerplate-reducer.js"] [N, "src", "reducers", "index.js"],
          Node.file c₂) ::
        (cpTarget f3 ["boilerplate-action.js"] [N, "src", "actions", "index.js"],
          Node.file c₁) :: f3)
      ["boilerplate-index.js"] [N, "src", "index.js"]
      with ⟨hdd, ht⟩ | ⟨hdd, ht⟩
    · have ht' : cpTarget
          ((cpTarget
              ((cpTarget
                  ((cpTarget f3 ["boilerplate-action.js"]
                      [N, "src", "actions", "index.js"], Node.file c₁) :: f3)
                  ["boilerplate-reducer.js"] [N, "src", "reducers", "index.js"],
                Node.file c₂) ::
                (cpTarget f3 ["boilerplate-action.js"]
                  [N, "src", "actions", "index.js"], Node.file c₁) :: f3)
              ["boilerplate-app.js"] [N, "src", "App.js"], Node.file c₃) ::
            (cpTarget
                ((cpTarget f3 ["boilerplate-action.js"]
                    [N, "src", "actions", "index.js"], Node.file c₁) :: f3)
                ["boilerplate-reducer.js"] [N, "src", "reducers", "index.js"],
              Node.file c₂) ::
            (cpTarget f3 ["boilerplate-action.js"] [N, "src", "actions", "index.js"],
              Node.file c₁) :: f3)
          ["boilerplate-index.js"] [N, "src", "index.js"] =
          [N, "src", "index.js", "boilerplate-index.js"] := ht
      refine Or.inl ⟨?_, ?_, ?_⟩
      · rw [lookupNode_cons, if_neg (ne_cpTarget_of (by simp) (fun x => by simp)),
          lookupNode_cons, if_neg (ne_cpTarget_of (by simp) (fun x => by simp)),
          lookupNode_cons,
          if_neg (ne_cpTarget_of (by simp) (fun x => by simp))] at hdd
        rcases mkdirUnder_dir_bwd _ _ _ hm3 _ hdd with hmem | h2
        · simp at hmem
        rcases mkdirUnder_dir_bwd _ _ _ hm2 _ h2 with hmem | h3
        · simp at hmem
        rcases mkdirUnder_dir_bwd _ _ _ hm1 _ h3 with hmem | h4
        · simp at hmem
        exact h4
      · rw [lookupNode_cons, if_neg (by rw [ht]; exact ne_append_singleton _ _)]
        exact hdd
      · rw [lookupNode_cons, if_pos ht'.symm]
    · refine Or.inr ?_
      rw [lookupNode_cons, if_pos ht.symm]

/-- Full characterisation of a successful run of the TypeScript variant's
`copy-files` file-system commands, analogous to the plain variant's. -/
theorem copyFs_ts_char (N : String) (fs fs' : FS)
    (h : runFsOps (copyOps .ts N) fs = .ok fs') :
    ∃ c₁ c₂ c₃ c₄,
      lookupNode fs ["boilerplate-store.ts"] = some (Node.file c₁) ∧
      lookupNode fs ["boilerplate-hooks.ts"] = some (Node.file c₂) ∧
      lookupNode fs ["boilerplate-app.tsx"] = some (Node.file c₃) ∧
      lookupNode fs ["boilerplate-index.tsx"] = some (Node.file c₄) ∧
      lookupNode fs' ["boilerplate-store.ts"] = some (Node.file c₁) ∧
      lookupNode fs' ["boilerplate-hooks.ts"] = some (Node.file c₂) ∧
      lookupNode fs' ["boilerplate-app.tsx"] = some (Node.file c₃) ∧
      lookupNode fs' ["boilerplate-index.tsx"] = some (Node.file c₄) ∧
      lookupNode fs' [N] = some Node.dir ∧
      lookupNode fs' [N, "src"] = some Node.dir ∧
      lookupNode fs' [N, "src", "components"] = some Node.dir ∧
      lookupNode fs' [N, "src", "app"] = some Node.dir ∧
      ((lookupNode fs [N, "src", "app", "store.tsx"] = some Node.dir ∧
        lookupNode fs' [N, "src", "app", "store.tsx"] = some Node.dir ∧
        lookupNode fs' [N, "src", "app", "store.tsx", "boilerplate-store.ts"] =
          some (Node.file c₁)) ∨
        lookupNode fs' [N, "src", "app", "store.tsx"] = some (Node.file c₁)) ∧
      ((lookupNode fs [N, "src", "app", "hooks.tsx"] = some Node.dir ∧
        lookupNode fs' [N, "src", "app", "hooks.tsx"] = some Node.dir ∧
        lookupNode fs' [N, "src", "app", "hooks.tsx", "boilerplate-hooks.ts"] =
          some (Node.file c₂)) ∨
        lookupNode fs' [N, "src", "app", "hooks.tsx"] = some (Node.file c₂)) ∧
      ((lookupNode fs [N, "src", "App.tsx"] = some Node.dir ∧
        lookupNode fs' [N, "src", "App.tsx"] = some Node.dir ∧
        lookupNode fs' [N, "src", "App.tsx", "boilerplate-app.tsx"] =
          some (Node.file c₃)) ∨
        lookupNode fs' [N, "src", "App.tsx"] = some (Node.file c₃)) ∧
      ((lookupNode fs [N, "src", "index.tsx"] = some Node.dir ∧
        lookupNode fs' [N, "src", "index.tsx"] = some Node.dir ∧
        lookupNode fs' [N, "src", "index.tsx", "boilerplate-index.tsx"] =
          some (Node.file c₄)) ∨
        lookupNode fs' [N, "src", "index.tsx"] = some (Node.file c₄)) := by
  simp only [copyOps] at h
  rw [runFsOps_cons_ok_iff] at h
  obtain ⟨f1, hm1, h⟩ := h
  rw [runFsOps_cons_ok_iff] at h
  obtain ⟨f2, hm2, h⟩ := h
  rw [runFsOps_cons_ok_iff] at h
  obtain ⟨f3, hp1, h⟩ := h
  rw [runFsOps_cons_ok_iff] at h
  obtain ⟨f4, hp2, h⟩ := h
  rw [runFsOps_cons_ok_iff] at h
  obtain ⟨f5, hp3, h⟩ := h
  rw [runFsOps_cons_ok_iff] at h
  obtain ⟨f6, hp4, h⟩ := h
  have hf6 : f6 = fs' := by simpa [runFsOps] using h
  subst hf6
  simp only [applyFsOp] at hm1 hm2 hp1 hp2 hp3 hp4
  rw [prefixesOf_three] at hm1 hm2
  obtain ⟨c₁, hs₁, -, -, rfl⟩ := cp_ok_elim hp1
  obtain ⟨c₂, hs₂, -, -, rfl⟩ := cp_ok_elim hp2
  obtain ⟨c₃, hs₃, -, -, rfl⟩ := cp_ok_elim hp3
  obtain ⟨c₄, hs₄, -, -, rfl⟩ := cp_ok_elim hp4
  have hb : ∀ q c, lookupNode f2 q = some (Node.file c) →
      lookupNode fs q = some (Node.file c) := fun q c hq =>
    mkdirUnder_file_bwd _ _ _ hm1 q c (mkdirUnder_file_bwd _ _ _ hm2 q c hq)
  have hs₂' : lookupNode f2 ["boilerplate-hooks.ts"] = some (Node.file c₂) := by
    rw [lookupNode_cons,
      if_neg (ne_cpTarget_of (by simp) (fun x => by simp))] at hs₂
    exact hs₂
  have hs₃' : lookupNode f2 ["boilerplate-app.tsx"] = some (Node.file c₃) := by
    rw [lookupNode_cons, if_neg (ne_cpTarget_of (by simp) (fun x => by simp)),
      lookupNode_cons,
      if_neg (ne_cpTarget_of (by simp) (fun x => by simp))] at hs₃
    exact hs₃
  have hs₄' : lookupNode f2 ["boilerplate-index.tsx"] = some (Node.file c₄) := by
    rw [lookupNode_cons, if_neg (ne_cpTarget_of (by simp) (fun x => by simp)),
      lookupNode_cons, if_neg (ne_cpTarget_of (by simp) (fun x => by simp)),
      lookupNode_cons,
      if_neg (ne_cpTarget_of (by simp) (fun x => by simp))] at hs₄
    exact hs₄
  have hdN2 : lookupNode f2 [N] = some Node.dir :=
    mkdirUnder_dir_fwd _ _ _ hm2 _ (mkdirUnder_creates _ _ _ hm1 [N] (by simp))
  have hdNs2 : lookupNode f2 [N, "src"] = some Node.dir :=
    mkdirUnder_dir_fwd _ _ _ hm2 _
      (mkdirUnder_creates _ _ _ hm1 [N, "src"] (by simp))
  have hdNsc2 : lookupNode f2 [N, "src", "components"] = some Node.dir :=
    mkdirUnder_dir_fwd _ _ _ hm2 _
      (mkdirUnder_creates _ _ _ hm1 [N, "src", "components"] (by simp))
  have hdNsa2 : lookupNode f2 [N, "src", "app"] = some Node.dir :=
    mkdirUnder_creates _ _ _ hm2 [N, "src", "app"] (by simp)
  refine ⟨c₁, c₂, c₃, c₄, hb _ _ hs₁, hb _ _ hs₂', hb _ _ hs₃', hb _ _ hs₄',
    ?_, ?_, ?_, ?_, ?_, ?_, ?_, ?_, ?_, ?_, ?_, ?_⟩
  · rw [lookupNode_cons, if_neg (ne_cpTarget_of (by simp) (fun x => by simp)),
      lookupNode_cons, if_neg (ne_cpTarget_of (by simp) (fun x => by simp)),
      lookupNode_cons, if_neg (ne_cpTarget_of (by simp) (fun x => by simp)),
      lookupNode_cons, if_neg (ne_cpTarget_of (by simp) (fun x => by simp))]
    exact hs₁
  · rw [lookupNode_cons, if_neg (ne_cpTarget_of (by simp) (fun x => by simp)),
      lookupNode_cons, if_neg (ne_cpTarget_of (by simp) (fun x => by simp)),
      lookupNode_cons, if_neg (ne_cpTarget_of (by simp) (fun x => by simp)),
      lookupNode_cons, if_neg (ne_cpTarget_of (by simp) (fun x => by simp))]
    exact hs₂'
  · rw [lookupNode_cons, if_neg (ne_cpTarget_of (by simp) (fun x => by simp)),
      lookupNode_cons, if_neg (ne_cpTarget_of (by simp) (fun x => by simp)),
      lookupNode_cons, if_neg (ne_cpTarget_of (by simp) (fun x => by simp)),
      lookupNode_cons, if_neg (ne_cpTarget_of (by simp) (fun x => by simp))]
    exact hs₃'
  · rw [lookupNode_cons, if_neg (ne_cpTarget_of (by simp) (fun x => by simp)),
      lookupNode_cons, if_neg (ne_cpTarget_of (by simp) (fun x => by simp)),
      lookupNode_cons, if_neg (ne_cpTarget_of (by simp) (fun x => by simp)),
      lookupNode_cons, if_neg (ne_cpTarget_of (by simp) (fun x => by simp))]
    exact hs₄'
  · rw [lookupNode_cons, if_neg (ne_cpTarget_of (by simp) (fun x => by simp)),
      lookupNode_cons, if_neg (ne_cpTarget_of (by simp) (fun x => by simp)),
      lookupNode_cons, if_neg (ne_cpTarget_of (by simp) (fun x => by simp)),
      lookupNode_cons, if_neg (ne_cpTarget_of (by simp) (fun x => by simp))]
    exact hdN2
  · rw [lookupNode_cons, if_neg (ne_cpTarget_of (by simp) (fun x => by simp)),
      lookupNode_cons, if_neg (ne_cpTarget_of (by simp) (fun x => by simp)),
      lookupNode_cons, if_neg (ne_cpTarget_of (by simp) (fun x => by simp)),
      lookupNode_cons, if_neg (ne_cpTarget_of (by simp) (fun x => by simp))]
    exact hdNs2
  · rw [lookupNode_cons, if_neg (ne_cpTarget_of (by simp) (fun x => by simp)),
      lookupNode_cons, if_neg (ne_cpTarget_of (by simp) (fun x => by simp)),
      lookupNode_cons, if_neg (ne_cpTarget_of (by simp) (fun x => by simp)),
      lookupNode_cons, if_neg (ne_cpTarget_of (by simp) (fun x => by simp))]
    exact hdNsc2
  · rw [lookupNode_cons, if_neg (ne_cpTarget_of (by simp) (fun x => by simp)),
      lookupNode_cons, if_neg (ne_cpTarget_of (by simp) (fun x => by simp)),
      lookupNode_cons, if_neg (ne_cpTarget_of (by simp) (fun x => by simp)),
      lookupNode_cons, if_neg (ne_cpTarget_of (by simp) (fun x => by simp))]
    exact hdNsa2
  · rcases cpTarget_cases f2 ["boilerplate-store.ts"]
      [N, "src", "app", "store.tsx"] with ⟨hdd, ht⟩ | ⟨hdd, ht⟩
    · have ht' : cpTarget f2 ["boilerplate-store.ts"]
          [N, "src", "app", "store.tsx"] =
          [N, "src", "app", "store.tsx", "boilerplate-store.ts"] := ht
      refine Or.inl ⟨?_, ?_, ?_⟩
      · rcases mkdirUnder_dir_bwd _ _ _ hm2 _ hdd with hmem | h2
        · simp at hmem
        rcases mkdirUnder_dir_bwd _ _ _ hm1 _ h2 with hmem | h3
        · simp at hmem
        exact h3
      · rw [lookupNode_cons, if_neg (ne_cpTarget_of (by simp) (fun x => by simp)),
          lookupNode_cons, if_neg (ne_cpTarget_of (by simp) (fun x => by simp)),
          lookupNode_cons, if_neg (ne_cpTarget_of (by simp) (fun x => by simp)),
          lookupNode_cons, if_neg (by rw [ht]; exact ne_append_singleton _ _)]
        exact hdd
      · rw [lookupNode_cons, if_neg (ne_cpTarget_of (by simp) (fun x => by simp)),
          lookupNode_cons, if_neg (ne_cpTarget_of (by simp) (fun x => by simp)),
          lookupNode_cons, if_neg (ne_cpTarget_of (by simp) (fun x => by simp)),
          lookupNode_cons, if_pos ht'.symm]
    · refine Or.inr ?_
      rw [lookupNode_cons, if_neg (ne_cpTarget_of (by simp) (fun x => by simp)),
        lookupNode_cons, if_neg (ne_cpTarget_of (by simp) (fun x => by simp)),
        lookupNode_cons, if_neg (ne_cpTarget_of (by simp) (fun x => by simp)),
        lookupNode_cons, if_pos ht.symm]
  · rcases cpTarget_cases
      ((cpTarget f2 ["boilerplate-store.ts"] [N, "src", "app", "store.tsx"],
        Node.file c₁) :: f2)
      ["boilerplate-hooks.ts"] [N, "src", "app", "hooks.tsx"]
      with ⟨hdd, ht⟩ | ⟨hdd, ht⟩
    · have ht' : cpTarget
          ((cpTarget f2 ["boilerplate-store.ts"] [N, "src", "app", "store.tsx"],
            Node.file c₁) :: f2)
          ["boilerplate-hooks.ts"] [N, "src", "app", "hooks.tsx"] =
          [N, "src", "app", "hooks.tsx", "boilerplate-hooks.ts"] := ht
      refine Or.inl ⟨?_, ?_, ?_⟩
      · rw [lookupNode_cons,
          if_neg (ne_cpTarget_of (by simp) (fun x => by simp))] at hdd
        rcases mkdirUnder_dir_bwd _ _ _ hm2 _ hdd with hmem | h2
        · simp at hmem
        rcases mkdirUnder_dir_bwd _ _ _ hm1 _ h2 with hmem | h3
        · simp at hmem
        exact h3
      · rw [lookupNode_cons,
          if_neg (ne_cpTarget_of (by simp) (fun x => by simp))] at hdd
        rw [lookupNode_cons, if_neg (ne_cpTarget_of (by simp) (fun x => by simp)),
          lookupNode_cons, if_neg (ne_cpTarget_of (by simp) (fun x => by simp)),
          lookupNode_cons, if_neg (by rw [ht]; exact ne_append_singleton _ _),
          lookupNode_cons, if_neg (ne_cpTarget_of (by simp) (fun x => by simp))]
        exact hdd
      · rw [lookupNode_cons, if_neg (ne_cpTarget_of (by simp) (fun x => by simp)),
          lookupNode_cons, if_neg (ne_cpTarget_of (by simp) (fun x => by simp)),
          lookupNode_cons, if_pos ht'.symm]
    · refine Or.inr ?_
      rw [lookupNode_cons, if_neg (ne_cpTarget_of (by simp) (fun x => by simp)),
        lookupNode_cons, if_neg (ne_cpTarget_of (by simp) (fun x => by simp)),
        lookupNode_cons, if_pos ht.symm]
  · rcases cpTarget_cases
      ((cpTarget
          ((cpTarget f2 ["boilerplate-store.ts"] [N, "src", "app", "store.tsx"],
            Node.file c₁) :: f2)
          ["boilerplate-hooks.ts"] [N, "src", "app", "hooks.tsx"],
        Node.file c₂) ::
        (cpTarget f2 ["boilerplate-store.ts"] [N, "src", "app", "store.tsx"],
          Node.file c₁) :: f2)
      ["boilerplate-app.tsx"] [N, "src", "App.tsx"]
      with ⟨hdd, ht⟩ | ⟨hdd, ht⟩
    · have ht' : cpTarget
          ((cpTarget
              ((cpTarget f2 ["boilerplate-store.ts"] [N, "src", "app", "store.tsx"],
                Node.file c₁) :: f2)
              ["boilerplate-hooks.ts"] [N, "src", "app", "hooks.tsx"],
            Node.file c₂) ::
            (cpTarget f2 ["boilerplate-store.ts"] [N, "src", "app", "store.tsx"],
              Node.file c₁) :: f2)
          ["boilerplate-app.tsx"] [N, "src", "App.tsx"] =
          [N, "src", "App.tsx", "boilerplate-app.tsx"] := ht
      refine Or.inl ⟨?_, ?_, ?_⟩
      · rw [lookupNode_cons, if_neg (ne_cpTarget_of (by simp) (fun x => by simp)),
          lookupNode_cons,
          if_neg (ne_cpTarget_of (by simp) (fun x => by simp))] at hdd
        rcases mkdirUnder_dir_bwd _ _ _ hm2 _ hdd with hmem | h2
        · simp at hmem
        rcases mkdirUnder_dir_bwd _ _ _ hm1 _ h2 with hmem | h3
        · simp at hmem
        exact h3
      · rw [lookupNode_cons, if_neg (ne_cpTarget_of (by simp) (fun x => by simp)),
          lookupNode_cons, if_neg (by rw [ht]; exact ne_append_singleton _ _)]
        exact hdd
      · rw [lookupNode_cons, if_neg (ne_cpTarget_of (by simp) (fun x => by simp)),
          lookupNode_cons, if_pos ht'.symm]
    · refine Or.inr ?_
      rw [lookupNode_cons, if_neg (ne_cpTarget_of (by simp) (fun x => by simp)),
        lookupNode_cons, if_pos ht.symm]
  · rcases cpTarget_cases
      ((cpTarget
          ((cpTarget
              ((cpTarget f2 ["boilerplate-store.ts"] [N, "src", "app", "store.tsx"],
                Node.file c₁) :: f2)
              ["boilerplate-hooks.ts"] [N, "src", "app", "hooks.tsx"],
            Node.file c₂) ::
            (cpTarget f2 ["boilerplate-store.ts"] [N, "src", "app", "store.tsx"],
              Node.file c₁) :: f2)
          ["boilerplate-app.tsx"] [N, "src", "App.tsx"], Node.file c₃) ::
        (cpTarget
            ((cpTarget f2 ["boilerplate-store.ts"] [N, "src", "app", "store.tsx"],
              Node.file c₁) :: f2)
            ["boilerplate-hooks.ts"] [N, "src", "app", "hooks.tsx"],
          Node.file c₂) ::
        (cpTarget f2 ["boilerplate-store.ts"] [N, "src", "app", "store.tsx"],
          Node.file c₁) :: f2)
      ["boilerplate-index.tsx"] [N, "src", "index.tsx"]
      with ⟨hdd, ht⟩ | ⟨hdd, ht⟩
    · have ht' : cpTarget
          ((cpTarget
              ((cpTarget
                  ((cpTarget f2 ["boilerplate-store.ts"]
                      [N, "src", "app", "store.tsx"], Node.file c₁) :: f2)
                  ["boilerplate-hooks.ts"] [N, "src", "app", "hooks.tsx"],
                Node.file c₂) ::
                (cpTarget f2 ["boilerplate-store.ts"]
                  [N, "src", "app", "store.tsx"], Node.file c₁) :: f2)
              ["boilerplate-app.tsx"] [N, "src", "App.tsx"], Node.file c₃) ::
            (cpTarget
                ((cpTarget f2 ["boilerplate-store.ts"]
                    [N, "src", "app", "store.tsx"], Node.file c₁) :: f2)
                ["boilerplate-hooks.ts"] [N, "src", "app", "hooks.tsx"],
              Node.file c₂) ::
            (cpTarget f2 ["boilerplate-store.ts"] [N, "src", "app", "store.tsx"],
              Node.file c₁) :: f2)
          ["boilerplate-index.tsx"] [N, "src", "index.tsx"] =
          [N, "src", "index.tsx", "boilerplate-index.tsx"] := ht
      refine Or.inl ⟨?_, ?_, ?_⟩
      · rw [lookupNode_cons, if_neg (ne_cpTarget_of (by simp) (fun x => by simp)),
          lookupNode_cons, if_neg (ne_cpTarget_of (by simp) (fun x => by simp)),
          lookupNode_cons,
          if_neg (ne_cpTarget_of (by simp) (fun x => by simp))] at hdd
        rcases mkdirUnder_dir_bwd _ _ _ hm2 _ hdd with hmem | h2
        · simp at hmem
        rcases mkdirUnder_dir_bwd _ _ _ hm1 _ h2 with hmem | h3
        · simp at hmem
        exact h3
      · rw [lookupNode_cons, if_neg (by rw [ht]; exact ne_append_singleton _ _)]
        exact hdd
      · rw [lookupNode_cons, if_pos ht'.symm]
    · refine Or.inr ?_
      rw [lookupNode_cons, if_pos ht.symm]

/-- C4, amended: the `copy-files` step's command list is its `mkdir -p`
lines followed by exactly four `cp` lines for the four fixed
source-template / destination pairs; on any successful run from a state in
which no destination path is a pre-existing directory, each destination
afterwards holds exactly its source template's content — whatever the
destination held before, i.e. an unconditional overwrite of any existing
destination file — and each destination's parent directory exists (created
first when missing), in both variants.  (When a destination path names a
pre-existing directory, the external copy tool instead succeeds by placing
the file inside that directory; see the counterexample.) -/
theorem copy_templates_copies_four (v : Variant) (env : Env) (P : Params)
    (st st' : St)
    (hnd : ∀ pr ∈ copyPairs v P.name, lookupNode st.fs pr.2 ≠ some Node.dir)
    (h : runCmds env P (stepCmds v P .copyFiles) st = .ok st') :
    (copyOps v P.name = (mkdirDirs v P.name).map FSOp.mkdirp ++
      (copyPairs v P.name).map (fun pr => FSOp.cp pr.1 pr.2)) ∧
    (copyPairs v P.name).length = 4 ∧
    ∀ pr ∈ copyPairs v P.name,
      ∃ c, lookupNode st.fs pr.1 = some (Node.file c) ∧
        lookupNode st'.fs pr.2 = some (Node.file c) ∧
        lookupNode st'.fs pr.2.dropLast = some Node.dir := by
  have hstep : stepCmds v P .copyFiles =
      (copyOps v P.name).map (Cmd.fsOp .invocationRoot) := rfl
  rw [hstep, runCmds_fsOps] at h
  cases hr : runFsOps (copyOps v P.name) st.fs with
  | err e fs₂ =>
    simp only [hr] at h
    cases h
  | ok fs' =>
    simp only [hr] at h
    have hst' : st' = { st with fs := fs' } := (CmdRes.ok.inj h).symm
    have hfs : st'.fs = fs' := by rw [hst']
    cases v with
    | js =>
      obtain ⟨c₁, c₂, c₃, c₄, ha1, ha2, ha3, ha4, _, _, _, _,
        hN, hNs, hNsc, hNsa, hNsr, hDO1, hDO2, hDO3, hDO4⟩ :=
        copyFs_js_char P.name st.fs fs' hr
      refine ⟨rfl, rfl, ?_⟩
      intro pr hpr
      have hnd' := hnd pr hpr
      simp only [copyPairs, List.mem_cons, List.not_mem_nil, or_false] at hpr
      rcases hpr with rfl | rfl | rfl | rfl
      · rcases hDO1 with ⟨hdirfs, -, -⟩ | hfile
        · exact absurd hdirfs hnd'
        · exact ⟨c₁, ha1, by rw [hfs]; exact hfile, by rw [hfs]; exact hNsa⟩
      · rcases hDO2 with ⟨hdirfs, -, -⟩ | hfile
        · exact absurd hdirfs hnd'
        · exact ⟨c₂, ha2, by rw [hfs]; exact hfile, by rw [hfs]; exact hNsr⟩
      · rcases hDO3 with ⟨hdirfs, -, -⟩ | hfile
        · exact absurd hdirfs hnd'
        · exact ⟨c₃, ha3, by rw [hfs]; exact hfile, by rw [hfs]; exact hNs⟩
      · rcases hDO4 with ⟨hdirfs, -, -⟩ | hfile
        · exact absurd hdirfs hnd'
        · exact ⟨c₄, ha4, by rw [hfs]; exact hfile, by rw [hfs]; exact hNs⟩
    | ts =>
      obtain ⟨c₁, c₂, c₃, c₄, ha1, ha2, ha3, ha4, _, _, _, _,
        hN, hNs, hNsc, hNsa, hDO1, hDO2, hDO3, hDO4⟩ :=
        copyFs_ts_char P.name st.fs fs' hr
      refine ⟨rfl, rfl, ?_⟩
      intro pr hpr
      have hnd' := hnd pr hpr
      simp only [copyPairs, List.mem_cons, List.not_mem_nil, or_false] at hpr
      rcases hpr with rfl | rfl | rfl | rfl
      · rcases hDO1 with ⟨hdirfs, -, -⟩ | hfile
        · exact absurd hdirfs hnd'
        · exact ⟨c₁, ha1, by rw [hfs]; exact hfile, by rw [hfs]; exact hNsa⟩
      · rcases hDO2 with ⟨hdirfs, -, -⟩ | hfile
        · exact absurd hdirfs hnd'
        · exact ⟨c₂, ha2, by rw [hfs]; exact hfile, by rw [hfs]; exact hNsa⟩
      · rcases hDO3 with ⟨hdirfs, -, -⟩ | hfile
        · exact absurd hdirfs hnd'
        · exact ⟨c₃, ha3, by rw [hfs]; exact hfile, by rw [hfs]; exact hNs⟩
      · rcases hDO4 with ⟨hdirfs, -, -⟩ | hfile
        · exact absurd hdirfs hnd'
        · exact ⟨c₄, ha4, by rw [hfs]; exact hfile, by rw [hfs]; exact hNs⟩

/-- Environment in which every external command succeeds without touching
the state. -/
def okEnv : Env := fun _ _ st => .ok st

/-- Starting state for the copy witnesses: just the four plain-variant
template files at the invocation root. -/
def tmplSt : St :=
  ⟨[(["boilerplate-action.js"], Node.file "A"),
    (["boilerplate-reducer.js"], Node.file "R"),
    (["boilerplate-app.js"], Node.file "P"),
    (["boilerplate-index.js"], Node.file "I")], []⟩

/-- The state produced by running `copy-files` once on `tmplSt`. -/
def copyOutSt : St :=
  match runCmds okEnv demoParams (stepCmds .js demoParams .copyFiles) tmplSt with
  | .ok st => st
  | .fail _ st => st

/-- Witness for C4 at a concrete filesystem. -/
theorem copy_templates_copies_four_witness :
    (copyOps .js demoParams.name = (mkdirDirs .js demoParams.name).map FSOp.mkdirp ++
      (copyPairs .js demoParams.name).map (fun pr => FSOp.cp pr.1 pr.2)) ∧
    (copyPairs .js demoParams.name).length = 4 ∧
    ∀ pr ∈ copyPairs .js demoParams.name,
      ∃ c, lookupNode tmplSt.fs pr.1 = some (Node.file c) ∧
        lookupNode copyOutSt.fs pr.2 = some (Node.file c) ∧
        lookupNode copyOutSt.fs pr.2.dropLast = some Node.dir :=
  copy_templates_copies_four .js okEnv demoParams tmplSt copyOutSt
    (by decide) (by rfl)

/-- Starting state for the C4 counterexample: the four template files plus
a pre-existing directory at the fixed destination path `demo/src/App.js`
(with its parents). -/
def dirDestSt : St :=
  ⟨[(["boilerplate-action.js"], Node.file "A"),
    (["boilerplate-reducer.js"], Node.file "R"),
    (["boilerplate-app.js"], Node.file "P"),
    (["boilerplate-index.js"], Node.file "I"),
    (["demo"], Node.dir),
    (["demo", "src"], Node.dir),
    (["demo", "src", "App.js"], Node.dir)], []⟩

/-- The state produced by running `copy-files` once on `dirDestSt`. -/
def dirDestOutSt : St :=
  match runCmds okEnv demoParams (stepCmds .js demoParams .copyFiles) dirDestSt with
  | .ok st => st
  | .fail _ st => st

/-- C4, counterexample to the claim as stated: when the fixed destination
path `demo/src/App.js` is a pre-existing directory, the `copy-files` step
still succeeds (`cp` copies the template into that directory instead), so
the step does not copy the template to the fixed destination path, let
alone overwrite it: afterwards the destination path is still a directory
while the source template holds content `P`. -/
theorem claimedOverwrite_false :
    runCmds okEnv demoParams (stepCmds .js demoParams .copyFiles) dirDestSt =
      .ok dirDestOutSt ∧
    lookupNode dirDestSt.fs ["boilerplate-app.js"] = some (Node.file "P") ∧
    lookupNode dirDestOutSt.fs ["demo", "src", "App.js"] = some Node.dir := by
  exact ⟨rfl, rfl, rfl⟩

/-- Idempotence of the plain variant's `copy-files` commands at the
filesystem level: after one successful run, a second run succeeds and
changes no path's entry at all — each copy's write target already holds
its source's content, so every copy is a pure overwrite with identical
bytes. -/
theorem copyFs_js_idem (N : String) (fs fs₁ : FS)
    (h : runFsOps (copyOps .js N) fs = .ok fs₁) :
    ∃ fs₂, runFsOps (copyOps .js N) fs₁ = .ok fs₂ ∧
      ∀ pr ∈ copyPairs .js N, lookupNode fs₂ pr.2 = lookupNode fs₁ pr.2 := by
  obtain ⟨c₁, c₂, c₃, c₄, _, _, _, _, ha1, ha2, ha3, ha4,
    hN, hNs, hNsc, hNsa, hNsr, hDO1, hDO2, hDO3, hDO4⟩ :=
    copyFs_js_char N fs fs₁ h
  have e1 : applyFsOp fs₁ (FSOp.mkdirp [N, "src", "components"]) = .ok fs₁ := by
    simp only [applyFsOp]
    rw [prefixesOf_three]
    refine mkdirUnder_noop _ _ ?_
    intro p hp
    simp only [List.mem_cons, List.not_mem_nil, or_false] at hp
    rcases hp with rfl | rfl | rfl
    · exact hN
    · exact hNs
    · exact hNsc
  have e2 : applyFsOp fs₁ (FSOp.mkdirp [N, "src", "actions"]) = .ok fs₁ := by
    simp only [applyFsOp]
    rw [prefixesOf_three]
    refine mkdirUnder_noop _ _ ?_
    intro p hp
    simp only [List.mem_cons, List.not_mem_nil, or_false] at hp
    rcases hp with rfl | rfl | rfl
    · exact hN
    · exact hNs
    · exact hNsa
  have e3 : applyFsOp fs₁ (FSOp.mkdirp [N, "src", "reducers"]) = .ok fs₁ := by
    simp only [applyFsOp]
    rw [prefixesOf_three]
    refine mkdirUnder_noop _ _ ?_
    intro p hp
    simp only [List.mem_cons, List.not_mem_nil, or_false] at hp
    rcases hp with rfl | rfl | rfl
    · exact hN
    · exact hNs
    · exact hNsr
  have hfix₁ : lookupNode fs₁ (cpTarget fs₁ ["boilerplate-action.js"]
      [N, "src", "actions", "index.js"]) = some (Node.file c₁) := by
    rcases hDO1 with ⟨-, hdir, hfile⟩ | hfile
    · rw [cpTarget_pos hdir]
      exact hfile
    · rw [cpTarget_neg (by rw [hfile]; simp)]
      exact hfile
  have hfix₂ : lookupNode fs₁ (cpTarget fs₁ ["boilerplate-reducer.js"]
      [N, "src", "reducers", "index.js"]) = some (Node.file c₂) := by
    rcases hDO2 with ⟨-, hdir, hfile⟩ | hfile
    · rw [cpTarget_pos hdir]
      exact hfile
    · rw [cpTarget_neg (by rw [hfile]; simp)]
      exact hfile
  have hfix₃ : lookupNode fs₁ (cpTarget fs₁ ["boilerplate-app.js"]
      [N, "src", "App.js"]) = some (Node.file c₃) := by
    rcases hDO3 with ⟨-, hdir, hfile⟩ | hfile
    · rw [cpTarget_pos hdir]
      exact hfile
    · rw [cpTarget_neg (by rw [hfile]; simp)]
      exact hfile
  have hfix₄ : lookupNode fs₁ (cpTarget fs₁ ["boilerplate-index.js"]
      [N, "src", "index.js"]) = some (Node.file c₄) := by
    rcases hDO4 with ⟨-, hdir, hfile⟩ | hfile
    · rw [cpTarget_pos hdir]
      exact hfile
    · rw [cpTarget_neg (by rw [hfile]; simp)]
      exact hfile
  obtain ⟨g1, hcp1, hg1⟩ := cp_fix ha1 hfix₁ (Or.inr hNsa)
  have hs2g : lookupNode g1 ["boilerplate-reducer.js"] = some (Node.file c₂) :=
    (hg1 _).trans ha2
  have hfix2g : lookupNode g1 (cpTarget g1 ["boilerplate-reducer.js"]
      [N, "src", "reducers", "index.js"]) = some (Node.file c₂) := by
    rw [cpTarget_congr (hg1 [N, "src", "reducers", "index.js"]),
      hg1 (cpTarget fs₁ ["boilerplate-reducer.js"] [N, "src", "reducers", "index.js"])]
    exact hfix₂
  obtain ⟨g2, hcp2, hg2₀⟩ := cp_fix hs2g hfix2g
    (Or.inr ((hg1 [N, "src", "reducers"]).trans hNsr))
  have hg2 : ∀ q, lookupNode g2 q = lookupNode fs₁ q :=
    fun q => (hg2₀ q).trans (hg1 q)
  have hs3g : lookupNode g2 ["boilerplate-app.js"] = some (Node.file c₃) :=
    (hg2 _).trans ha3
  have hfix3g : lookupNode g2 (cpTarget g2 ["boilerplate-app.js"]
      [N, "src", "App.js"]) = some (Node.file c₃) := by
    rw [cpTarget_congr (hg2 [N, "src", "App.js"]),
      hg2 (cpTarget fs₁ ["boilerplate-app.js"] [N, "src", "App.js"])]
    exact hfix₃
  obtain ⟨g3, hcp3, hg3₀⟩ := cp_fix hs3g hfix3g
    (Or.inr ((hg2 [N, "src"]).trans hNs))
  have hg3 : ∀ q, lookupNode g3 q = lookupNode fs₁ q :=
    fun q => (hg3₀ q).trans (hg2 q)
  have hs4g : lookupNode g3 ["boilerplate-index.js"] = some (Node.file c₄) :=
    (hg3 _).trans ha4
  have hfix4g : lookupNode g3 (cpTarget g3 ["boilerplate-index.js"]
      [N, "src", "index.js"]) = some (Node.file c₄) := by
    rw [cpTarget_congr (hg3 [N, "src", "index.js"]),
      hg3 (cpTarget fs₁ ["boilerplate-index.js"] [N, "src", "index.js"])]
    exact hfix₄
  obtain ⟨g4, hcp4, hg4₀⟩ := cp_fix hs4g hfix4g
    (Or.inr ((hg3 [N, "src"]).trans hNs))
  have hg4 : ∀ q, lookupNode g4 q = lookupNode fs₁ q :=
    fun q => (hg4₀ q).trans (hg3 q)
  refine ⟨g4, ?_, fun pr _ => hg4 pr.2⟩
  simp only [copyOps]
  rw [runFsOps_cons_ok_iff]
  refine ⟨fs₁, e1, ?_⟩
  rw [runFsOps_cons_ok_iff]
  refine ⟨fs₁, e2, ?_⟩
  rw [runFsOps_cons_ok_iff]
  refine ⟨fs₁, e3, ?_⟩
  rw [runFsOps_cons_ok_iff]
  refine ⟨g1, ?_, ?_⟩
  · simp only [applyFsOp]
    exact hcp1
  · rw [runFsOps_cons_ok_iff]
    refine ⟨g2, ?_, ?_⟩
    · simp only [applyFsOp]
      exact hcp2
    · rw [runFsOps_cons_ok_iff]
      refine ⟨g3, ?_, ?_⟩
      · simp only [applyFsOp]
        exact hcp3
      · rw [runFsOps_cons_ok_iff]
        refine ⟨g4, ?_, rfl⟩
        simp only [applyFsOp]
        exact hcp4

/-- Idempotence of the TypeScript variant's `copy-files` commands at the
filesystem level. -/
theorem copyFs_ts_idem (N : String) (fs fs₁ : FS)
    (h : runFsOps (copyOps .ts N) fs = .ok fs₁) :
    ∃ fs₂, runFsOps (copyOps .ts N) fs₁ = .ok fs₂ ∧
      ∀ pr ∈ copyPairs .ts N, lookupNode fs₂ pr.2 = lookupNode fs₁ pr.2 := by
  obtain ⟨c₁, c₂, c₃, c₄, _, _, _, _, ha1, ha2, ha3, ha4,
    hN, hNs, hNsc, hNsa, hDO1, hDO2, hDO3, hDO4⟩ :=
    copyFs_ts_char N fs fs₁ h
  have e1 : applyFsOp fs₁ (FSOp.mkdirp [N, "src", "components"]) = .ok fs₁ := by
    simp only [applyFsOp]
    rw [prefixesOf_three]
    refine mkdirUnder_noop _ _ ?_
    intro p hp
    simp only [List.mem_cons, List.not_mem_nil, or_false] at hp
    rcases hp with rfl | rfl | rfl
    · exact hN
    · exact hNs
    · exact hNsc
  have e2 : applyFsOp fs₁ (FSOp.mkdirp [N, "src", "app"]) = .ok fs₁ := by
    simp only [applyFsOp]
    rw [prefixesOf_three]
    refine mkdirUnder_noop _ _ ?_
    intro p hp
    simp only [List.mem_cons, List.not_mem_nil, or_false] at hp
    rcases hp with rfl | rfl | rfl
    · exact hN
    · exact hNs
    · exact hNsa
  have hfix₁ : lookupNode fs₁ (cpTarget fs₁ ["boilerplate-store.ts"]
      [N, "src", "app", "store.tsx"]) = some (Node.file c₁) := by
    rcases hDO1 with ⟨-, hdir, hfile⟩ | hfile
    · rw [cpTarget_pos hdir]
      exact hfile
    · rw [cpTarget_neg (by rw [hfile]; simp)]
      exact hfile
  have hfix₂ : lookupNode fs₁ (cpTarget fs₁ ["boilerplate-hooks.ts"]
      [N, "src", "app", "hooks.tsx"]) = some (Node.file c₂) := by
    rcases hDO2 with ⟨-, hdir, hfile⟩ | hfile
    · rw [cpTarget_pos hdir]
      exact hfile
    · rw [cpTarget_neg (by rw [hfile]; simp)]
      exact hfile
  have hfix₃ : lookupNode fs₁ (cpTarget fs₁ ["boilerplate-app.tsx"]
      [N, "src", "App.tsx"]) = some (Node.file c₃) := by
    rcases hDO3 with ⟨-, hdir, hfile⟩ | hfile
    · rw [cpTarget_pos hdir]
      exact hfile
    · rw [cpTarget_neg (by rw [hfile]; simp)]
      exact hfile
  have hfix₄ : lookupNode fs₁ (cpTarget fs₁ ["boilerplate-index.tsx"]
      [N, "src", "index.tsx"]) = some (Node.file c₄) := by
    rcases hDO4 with ⟨-, hdir, hfile⟩ | hfile
    · rw [cpTarget_pos hdir]
      exact hfile
    · rw [cpTarget_neg (by rw [hfile]; simp)]
      exact hfile
  obtain ⟨g1, hcp1, hg1⟩ := cp_fix ha1 hfix₁ (Or.inr hNsa)
  have hs2g : lookupNode g1 ["boilerplate-hooks.ts"] = some (Node.file c₂) :=
    (hg1 _).trans ha2
  have hfix2g : lookupNode g1 (cpTarget g1 ["boilerplate-hooks.ts"]
      [N, "src", "app", "hooks.tsx"]) = some (Node.file c₂) := by
    rw [cpTarget_congr (hg1 [N, "src", "app", "hooks.tsx"]),
      hg1 (cpTarget fs₁ ["boilerplate-hooks.ts"] [N, "src", "app", "hooks.tsx"])]
    exact hfix₂
  obtain ⟨g2, hcp2, hg2₀⟩ := cp_fix hs2g hfix2g
    (Or.inr ((hg1 [N, "src", "app"]).trans hNsa))
  have hg2 : ∀ q, lookupNode g2 q = lookupNode fs₁ q :=
    fun q => (hg2₀ q).trans (hg1 q)
  have hs3g : lookupNode g2 ["boilerplate-app.tsx"] = some (Node.file c₃) :=
    (hg2 _).trans ha3
  have hfix3g : lookupNode g2 (cpTarget g2 ["boilerplate-app.tsx"]
      [N, "src", "App.tsx"]) = some (Node.file c₃) := by
    rw [cpTarget_congr (hg2 [N, "src", "App.tsx"]),
      hg2 (cpTarget fs₁ ["boilerplate-app.tsx"] [N, "src", "App.tsx"])]
    exact hfix₃
  obtain ⟨g3, hcp3, hg3₀⟩ := cp_fix hs3g hfix3g
    (Or.inr ((hg2 [N, "src"]).trans hNs))
  have hg3 : ∀ q, lookupNode g3 q = lookupNode fs₁ q :=
    fun q => (hg3₀ q).trans (hg2 q)
  have hs4g : lookupNode g3 ["boilerplate-index.tsx"] = some (Node.file c₄) :=
    (hg3 _).trans ha4
  have hfix4g : lookupNode g3 (cpTarget g3 ["boilerplate-index.tsx"]
      [N, "src", "index.tsx"]) = some (Node.file c₄) := by
    rw [cpTarget_congr (hg3 [N, "src", "index.tsx"]),
      hg3 (cpTarget fs₁ ["boilerplate-index.tsx"] [N, "src", "index.tsx"])]
    exact hfix₄
  obtain ⟨g4, hcp4, hg4₀⟩ := cp_fix hs4g hfix4g
    (Or.inr ((hg3 [N, "src"]).trans hNs))
  have hg4 : ∀ q, lookupNode g4 q = lookupNode fs₁ q :=
    fun q => (hg4₀ q).trans (hg3 q)
  refine ⟨g4, ?_, fun pr _ => hg4 pr.2⟩
  simp only [copyOps]
  rw [runFsOps_cons_ok_iff]
  refine ⟨fs₁, e1, ?_⟩
  rw [runFsOps_cons_ok_iff]
  refine ⟨fs₁, e2, ?_⟩
  rw [runFsOps_cons_ok_iff]
  refine ⟨g1, ?_, ?_⟩
  · simp only [applyFsOp]
    exact hcp1
  · rw [runFsOps_cons_ok_iff]
    refine ⟨g2, ?_, ?_⟩
    · simp only [applyFsOp]
      exact hcp2
    · rw [runFsOps_cons_ok_iff]
      refine ⟨g3, ?_, ?_⟩
      · simp only [applyFsOp]
        exact hcp3
      · rw [runFsOps_cons_ok_iff]
        refine ⟨g4, ?_, rfl⟩
        simp only [applyFsOp]
        exact hcp4

/-- C5: running the `copy-files` step twice in succession is idempotent:
whenever the first run succeeds, the second run succeeds as well and every
destination file's content after the second run is byte-identical to its
content after the first run (overwrite, never append), in both variants,
for every starting state on which the first run succeeds. -/
theorem copy_templates_idempotent (v : Variant) (env : Env) (P : Params)
    (st st₁ : St)
    (h : runCmds env P (stepCmds v P .copyFiles) st = .ok st₁) :
    ∃ st₂, runCmds env P (stepCmds v P .copyFiles) st₁ = .ok st₂ ∧
      ∀ pr ∈ copyPairs v P.name,
        lookupNode st₂.fs pr.2 = lookupNode st₁.fs pr.2 := by
  have hstep : stepCmds v P .copyFiles =
      (copyOps v P.name).map (Cmd.fsOp .invocationRoot) := rfl
  rw [hstep, runCmds_fsOps] at h
  cases hr : runFsOps (copyOps v P.name) st.fs with
  | err e fs₂ =>
    simp only [hr] at h
    cases h
  | ok fs' =>
    simp only [hr] at h
    have hst₁ : st₁ = { st with fs := fs' } := (CmdRes.ok.inj h).symm
    have hfs1 : st₁.fs = fs' := by rw [hst₁]
    have hidem : ∃ fs₂, runFsOps (copyOps v P.name) fs' = .ok fs₂ ∧
        ∀ pr ∈ copyPairs v P.name, lookupNode fs₂ pr.2 = lookupNode fs' pr.2 := by
      cases v with
      | js => exact copyFs_js_idem P.name st.fs fs' hr
      | ts => exact copyFs_ts_idem P.name st.fs fs' hr
    obtain ⟨fs₂, hrun2, hsame⟩ := hidem
    refine ⟨{ st₁ with fs := fs₂ }, ?_, ?_⟩
    · rw [hstep, runCmds_fsOps, hfs1, hrun2]
    · intro pr hpr
      have hpr2 : (⟨fs₂, st₁.commits⟩ : St).fs = fs₂ := rfl
      rw [hpr2, hfs1]
      exact hsame pr hpr

/-- Witness for C5 at a concrete filesystem: a second run over the output
of the first run on `tmplSt`. -/
theorem copy_templates_idempotent_witness :
    ∃ st₂, runCmds okEnv demoParams
        (stepCmds .js demoParams .copyFiles) copyOutSt = .ok st₂ ∧
      ∀ pr ∈ copyPairs .js demoParams.name,
        lookupNode st₂.fs pr.2 = lookupNode copyOutSt.fs pr.2 :=
  copy_templates_idempotent .js okEnv demoParams tmplSt copyOutSt (by rfl)

/-- The `copy-files` command chain can fail, but never with a
missing-destination-parent failure: the `mkdir -p` lines create every
destination's parent directory (including `NAME/src`) before any copy
runs, and a copy whose destination is an existing directory writes inside
it, so its write target's parent exists as well. -/
theorem copyFs_no_parent_err (v : Variant) (N : String) :
    ∀ (fs fs₂ : FS) (e : FsErr), runFsOps (copyOps v N) fs = .err e fs₂ →
      e ≠ FsErr.dstParentMissing := by
  cases v with
  | js =>
    intro fs fs₂ e h
    simp only [copyOps] at h
    rw [runFsOps_cons] at h
    split at h
    · rename_i f1 h1
      rw [runFsOps_cons] at h
      split at h
      · rename_i f2 h2
        rw [runFsOps_cons] at h
        split at h
        · rename_i f3 h3
          simp only [applyFsOp] at h1 h2 h3
          rw [prefixesOf_three] at h1 h2 h3
          have hNs : lookupNode f3 [N, "src"] = some Node.dir :=
            mkdirUnder_dir_fwd _ _ _ h3 _ (mkdirUnder_dir_fwd _ _ _ h2 _
              (mkdirUnder_creates _ _ _ h1 [N, "src"] (by simp)))
          have hNsa : lookupNode f3 [N, "src", "actions"] = some Node.dir :=
            mkdirUnder_dir_fwd _ _ _ h3 _
              (mkdirUnder_creates _ _ _ h2 [N, "src", "actions"] (by simp))
          have hNsr : lookupNode f3 [N, "src", "reducers"] = some Node.dir :=
            mkdirUnder_creates _ _ _ h3 [N, "src", "reducers"] (by simp)
          rw [runFsOps_cons] at h
          split at h
          · rename_i f4 h4
            simp only [applyFsOp] at h4
            have hNs4 := cp_ok_preserves_dir h4 _ hNs
            have hNsr4 := cp_ok_preserves_dir h4 _ hNsr
            rw [runFsOps_cons] at h
            split at h
            · rename_i f5 h5
              simp only [applyFsOp] at h5
              have hNs5 := cp_ok_preserves_dir h5 _ hNs4
              rw [runFsOps_cons] at h
              split at h
              · rename_i f6 h6
                simp only [applyFsOp] at h6
                have hNs6 := cp_ok_preserves_dir h6 _ hNs5
                rw [runFsOps_cons] at h
                split at h
                · rename_i f7 h7
                  simp [runFsOps] at h
                · rename_i e7 g7 h7
                  obtain ⟨he, -⟩ := FsRes.err.inj h
                  simp only [applyFsOp] at h7
                  intro hcontra
                  rw [hcontra] at he
                  refine absurd ?_ ((cp_err_elim h7).2 he)
                  by_cases hdd : lookupNode f6 [N, "src", "index.js"] = some Node.dir
                  · right
                    rw [cpTarget_pos hdd, List.dropLast_concat]
                    exact hdd
                  · right
                    rw [cpTarget_neg hdd]
                    exact hNs6
              · rename_i e6 g6 h6
                obtain ⟨he, -⟩ := FsRes.err.inj h
                simp only [applyFsOp] at h6
                intro hcontra
                rw [hcontra] at he
                refine absurd ?_ ((cp_err_elim h6).2 he)
                by_cases hdd : lookupNode f5 [N, "src", "App.js"] = some Node.dir
                · right
                  rw [cpTarget_pos hdd, List.dropLast_concat]
                  exact hdd
                · right
                  rw [cpTarget_neg hdd]
                  exact hNs5
            · rename_i e5 g5 h5
              obtain ⟨he, -⟩ := FsRes.err.inj h
              simp only [applyFsOp] at h5
              intro hcontra
              rw [hcontra] at he
              refine absurd ?_ ((cp_err_elim h5).2 he)
              by_cases hdd :
                  lookupNode f4 [N, "src", "reducers", "index.js"] = some Node.dir
              · right
                rw [cpTarget_pos hdd, List.dropLast_concat]
                exact hdd
              · right
                rw [cpTarget_neg hdd]
                exact hNsr4
          · rename_i e4 g4 h4
            obtain ⟨he, -⟩ := FsRes.err.inj h
            simp only [applyFsOp] at h4
            intro hcontra
            rw [hcontra] at he
            refine absurd ?_ ((cp_err_elim h4).2 he)
            by_cases hdd :
                lookupNode f3 [N, "src", "actions", "index.js"] = some Node.dir
            · right
              rw [cpTarget_pos hdd, List.dropLast_concat]
              exact hdd
            · right
              rw [cpTarget_neg hdd]
              exact hNsa
        · rename_i e3 g3 h3
          obtain ⟨he, -⟩ := FsRes.err.inj h
          simp only [applyFsOp] at h3
          have hfp := mkdirUnder_err _ _ _ _ h3
          rw [← he, hfp]
          decide
      · rename_i e2 g2 h2
        obtain ⟨he, -⟩ := FsRes.err.inj h
        simp only [applyFsOp] at h2
        have hfp := mkdirUnder_err _ _ _ _ h2
        rw [← he, hfp]
        decide
    · rename_i e1 g1 h1
      obtain ⟨he, -⟩ := FsRes.err.inj h
      simp only [applyFsOp] at h1
      have hfp := mkdirUnder_err _ _ _ _ h1
      rw [← he, hfp]
      decide
  | ts =>
    intro fs fs₂ e h
    simp only [copyOps] at h
    rw [runFsOps_cons] at h
    split at h
    · rename_i f1 h1
      rw [runFsOps_cons] at h
      split at h
      · rename_i f2 h2
        simp only [applyFsOp] at h1 h2
        rw [prefixesOf_three] at h1 h2
        have hNs : lookupNode f2 [N, "src"] = some Node.dir :=
          mkdirUnder_dir_fwd _ _ _ h2 _
            (mkdirUnder_creates _ _ _ h1 [N, "src"] (by simp))
        have hNsa : lookupNode f2 [N, "src", "app"] = some Node.dir :=
          mkdirUnder_creates _ _ _ h2 [N, "src", "app"] (by simp)
        rw [runFsOps_cons] at h
        split at h
        · rename_i f3 h3
          simp only [applyFsOp] at h3
          have hNs3 := cp_ok_preserves_dir h3 _ hNs
          have hNsa3 := cp_ok_preserves_dir h3 _ hNsa
          rw [runFsOps_cons] at h
          split at h
          · rename_i f4 h4
            simp only [applyFsOp] at h4
            have hNs4 := cp_ok_preserves_dir h4 _ hNs3
            rw [runFsOps_cons] at h
            split at h
            · rename_i f5 h5
              simp only [applyFsOp] at h5
              have hNs5 := cp_ok_preserves_dir h5 _ hNs4
              rw [runFsOps_cons] at h
              split at h
              · rename_i f6 h6
                simp [runFsOps] at h
              · rename_i e6 g6 h6
                obtain ⟨he, -⟩ := FsRes.err.inj h
                simp only [applyFsOp] at h6
                intro hcontra
                rw [hcontra] at he
                refine absurd ?_ ((cp_err_elim h6).2 he)
                by_cases hdd : lookupNode f5 [N, "src", "index.tsx"] = some Node.dir
                · right
                  rw [cpTarget_pos hdd, List.dropLast_concat]
                  exact hdd
                · right
                  rw [cpTarget_neg hdd]
                  exact hNs5
            · rename_i e5 g5 h5
              obtain ⟨he, -⟩ := FsRes.err.inj h
              simp only [applyFsOp] at h5
              intro hcontra
              rw [hcontra] at he
              refine absurd ?_ ((cp_err_elim h5).2 he)
              by_cases hdd : lookupNode f4 [N, "src", "App.tsx"] = some Node.dir
              · right
                rw [cpTarget_pos hdd, List.dropLast_concat]
                exact hdd
              · right
                rw [cpTarget_neg hdd]
                exact hNs4
          · rename_i e4 g4 h4
            obtain ⟨he, -⟩ := FsRes.err.inj h
            simp only [applyFsOp] at h4
            intro hcontra
            rw [hcontra] at he
            refine absurd ?_ ((cp_err_elim h4).2 he)
            by_cases hdd :
                lookupNode f3 [N, "src", "app", "hooks.tsx"] = some Node.dir
            · right
              rw [cpTarget_pos hdd, List.dropLast_concat]
              exact hdd
            · right
              rw [cpTarget_neg hdd]
              exact hNsa3
        · rename_i e3 g3 h3
          obtain ⟨he, -⟩ := FsRes.err.inj h
          simp only [applyFsOp] at h3
          intro hcontra
          rw [hcontra] at he
          refine absurd ?_ ((cp_err_elim h3).2 he)
          by_cases hdd :
              lookupNode f2 [N, "src", "app", "store.tsx"] = some Node.dir
          · right
            rw [cpTarget_pos hdd, List.dropLast_concat]
            exact hdd
          · right
            rw [cpTarget_neg hdd]
            exact hNsa
      · rename_i e2 g2 h2
        obtain ⟨he, -⟩ := FsRes.err.inj h
        simp only [applyFsOp] at h2
        have hfp := mkdirUnder_err _ _ _ _ h2
        rw [← he, hfp]
        decide
    · rename_i e1 g1 h1
      obtain ⟨he, -⟩ := FsRes.err.inj h
      simp only [applyFsOp] at h1
      have hfp := mkdirUnder_err _ _ _ _ h1
      rw [← he, hfp]
      decide

/-- Detector for the missing-destination-parent failure of a recipe. -/
def dstParentMissingB : CmdRes → Bool
  | .fail (some .dstParentMissing) _ => true
  | _ => false

/-- C10: the `copy-files` step, invoked on its own from any state with no
prior step ever run, can never fail for lack of a destination directory:
its `mkdir -p` commands create the entire project source-directory tree
(including `NAME/src`) before any copy, so the missing-destination-parent
failure branch of each copy is unreachable, in both variants. -/
theorem copy_templates_never_missing_parent (v : Variant) (env : Env)
    (P : Params) (st : St) :
    dstParentMissingB (runCmds env P (stepCmds v P .copyFiles) st) = false := by
  have hstep : stepCmds v P .copyFiles =
      (copyOps v P.name).map (Cmd.fsOp .invocationRoot) := rfl
  rw [hstep, runCmds_fsOps]
  cases hr : runFsOps (copyOps v P.name) st.fs with
  | ok fs' => rfl
  | err e fs₂ =>
    have hne := copyFs_no_parent_err v P.name st.fs fs₂ e hr
    cases e with
    | fileInPath => rfl
    | srcMissing => rfl
    | dstIsDir => rfl
    | dstParentMissing => exact absurd rfl hne
    | badOption => rfl

/-- Modelled from the spec: the external skeleton generator invoked by the
`create-react-app` target is missing from the repository and is treated as
a black box; §4.1 of the spec fixes its one relevant behaviour — "if a
directory with that name already exists, … fails rather than overwrite".
When an entry named `NAME` already exists under the invocation root the
invocation fails without touching the state; otherwise it creates the
project tree with a package manifest inside. -/
def craModel (N : String) (st : St) : CmdRes :=
  if (lookupNode st.fs [N]).isSome then .fail none st
  else .ok { st with fs :=
    ([N, "package.json"], Node.file "generated-manifest") ::
    ([N, "src"], Node.dir) :: ([N], Node.dir) :: st.fs }

/-- C7: when a directory named `NAME` already exists under the invocation
root and the generator behaves as the spec describes (failing rather than
overwriting), the composite build of either variant halts at the
skeleton-generation step with the state completely unchanged: no later
step executes, the package manifest is untouched and no commit is
created. -/
theorem build_stops_on_existing_dir (v : Variant) (env : Env) (P : Params)
    (st : St)
    (hmodel : ∀ s, env (craLine v P.name) Wd.invocationRoot s = craModel P.name s)
    (hdir : lookupNode st.fs [P.name] = some Node.dir) :
    runBuild v env P st = ([.createReactApp], .fail .createReactApp st) := by
  have hcra : runCmds env P (stepCmds v P .createReactApp) st = .fail none st := by
    have h1 : runCmd env P (.ext .invocationRoot (craLine v P.name)) st =
        .fail none st := by
      show env (craLine v P.name) .invocationRoot st = .fail none st
      rw [hmodel st]
      simp [craModel, hdir]
    rw [show stepCmds v P .createReactApp =
      [.ext .invocationRoot (craLine v P.name)] from rfl]
    rw [runCmds_cons, h1]
  unfold runBuild
  obtain ⟨rest, hrest⟩ : ∃ rest, buildNames v = .createReactApp :: rest := by
    cases v
    · exact ⟨_, rfl⟩
    · exact ⟨_, rfl⟩
  rw [hrest]
  simp [runNames, hcra]

/-- Environment for the C7 witness: the skeleton generator behaves as the
spec-modelled generator; every other external command succeeds. -/
def craOnlyEnv : Env := fun line _ st =>
  if line = craLine .js demoParams.name then craModel demoParams.name st
  else .ok st

/-- Starting state for the C7 witness: a directory named `demo` already
exists under the invocation root. -/
def demoDirSt : St := ⟨[(["demo"], Node.dir)], []⟩

/-- Witness for C7 at a concrete state with a pre-existing directory. -/
theorem build_stops_on_existing_dir_witness :
    runBuild .js craOnlyEnv demoParams demoDirSt =
      ([.createReactApp], .fail .createReactApp demoDirSt) :=
  build_stops_on_existing_dir .js craOnlyEnv demoParams demoDirSt
    (fun s => by simp [craOnlyEnv]) rfl
